import Mathlib

/-!
# NG word search blocker

A shallow embedding of the query matching pipeline of the browser extension:
`lib/normalize.js` (text normalisation), `content/unified-script.js` (the page
observer and the matcher), `background.js` (the configuration store) and
`options/options.js` (the authoring surface).

JavaScript strings are sequences of code points.  The built-ins of the
JavaScript engine that the code calls (`String.prototype.normalize`,
`String.prototype.toLowerCase`, the regex class `[\p{L}\p{N}]`, `new RegExp`)
are fields of an `Engine`; everything the repository itself computes is
defined below from its source.
-/

namespace NgWordBlocker

/-- A JavaScript string, as the list of its code points. -/
abbrev Str := List Char

/-! ## The engine's built-ins -/

/-- The built-ins of the JavaScript engine used by the extension.
`nfkc s` is `s.normalize('NFKC')`, `toLowerCase s` is `s.toLowerCase()`,
`isLetterOrNumber c` says whether `c` is in `[\p{L}\p{N}]`, and
`newRegExp p` is `new RegExp(p, 'i')`: `none` when the constructor throws,
otherwise the function `q ↦ regex.test(q)`. -/
structure Engine where
  nfkc : Str → Str
  toLowerCase : Str → Str
  isLetterOrNumber : Char → Bool
  newRegExp : Str → Option (Str → Bool)

/-- The code points that `String.prototype.trim` strips: the ECMAScript
`WhiteSpace` and `LineTerminator` productions. -/
def isWhiteSpace (c : Char) : Bool :=
  let n := c.toNat
  n == 0x9 || n == 0xA || n == 0xB || n == 0xC || n == 0xD || n == 0x20 ||
  n == 0xA0 || n == 0x1680 || (0x2000 ≤ n && n ≤ 0x200A) || n == 0x2028 ||
  n == 0x2029 || n == 0x202F || n == 0x205F || n == 0x3000 || n == 0xFEFF

/-- The method `String.prototype.trim`. -/
def trim (s : Str) : Str :=
  (s.dropWhile isWhiteSpace).rdropWhile isWhiteSpace

/-- The method `String.prototype.includes`: contiguous substring test. -/
def includes (haystack needle : Str) : Bool :=
  decide (needle <:+: haystack)

/-! ## lib/normalize.js -/

/-- Scanner for `.replace(/[^\p{L}\p{N}]+/gu, ' ')`: `inRun` tells that the
previous code point already belonged to the run of symbols being replaced. -/
def replaceSymbolRunsAux (isLN : Char → Bool) : Bool → Str → Str
  | _, [] => []
  | inRun, c :: cs =>
    if isLN c then c :: replaceSymbolRunsAux isLN false cs
    else if inRun then replaceSymbolRunsAux isLN true cs
    else ' ' :: replaceSymbolRunsAux isLN true cs

/-- The call `.replace(/[^\p{L}\p{N}]+/gu, ' ')`: every maximal run of code
points that are neither letters nor numbers becomes one space. -/
def replaceSymbolRuns (isLN : Char → Bool) (s : Str) : Str :=
  replaceSymbolRunsAux isLN false s

/-- The last statement of `normalizeText`, without its receiver:
`.replace(/[^\p{L}\p{N}]+/gu, ' ').trim()`. -/
def collapse (E : Engine) (s : Str) : Str :=
  trim (replaceSymbolRuns E.isLetterOrNumber s)

/-- The function `normalizeText` of `lib/normalize.js` on a string argument:
NFKC, lower case, symbol runs to one space, trim. -/
def normalizeText (E : Engine) (text : Str) : Str :=
  let normalized := E.toLowerCase (E.nfkc text)
  collapse E normalized

/-! ## content/unified-script.js: the matcher -/

/-- The stored `settings` object. -/
structure Settings where
  useRegex : Bool
  useWordBoundaryEN : Bool
  showBadge : Bool
deriving DecidableEq, Repr

/-- The test `/[a-zA-Z0-9]/.test(ngWord)`: some code point of the word is an
ASCII letter or digit. -/
def hasAsciiAlnum (ngWord : Str) : Bool :=
  ngWord.any Char.isAlphanum

/-- The string handed to `new RegExp(pattern, 'i')` for a word-list entry. -/
def regexPattern (settings : Settings) (ngWord : Str) : Str :=
  if settings.useWordBoundaryEN && hasAsciiAlnum ngWord then
    ['\\', 'b'] ++ ngWord ++ ['\\', 'b']
  else ngWord

/-- Normalisation as the content script and the options page call it:
`window.normalizeText` when it is a function, else lower case and trim. -/
def normalizeOr (E : Engine) (windowNormalizeText : Option (Str → Str)) (s : Str) : Str :=
  match windowNormalizeText with
  | some f => f s
  | none => trim (E.toLowerCase s)

/-- The body of the `for (const ngWord of currentNgWords)` loop of
`checkForNgWords`, over the entries not yet visited. -/
def checkLoop (E : Engine) (windowNormalizeText : Option (Str → Str)) (settings : Settings)
    (normalizedQuery : Str) : List Str → Option Str
  | [] => none
  | ngWord :: rest =>
    if settings.useRegex then
      match E.newRegExp (regexPattern settings ngWord) with
      | some test =>
        if test normalizedQuery then some ngWord
        else checkLoop E windowNormalizeText settings normalizedQuery rest
      | none =>
        if includes normalizedQuery (normalizeOr E windowNormalizeText ngWord) then some ngWord
        else checkLoop E windowNormalizeText settings normalizedQuery rest
    else
      if includes normalizedQuery (normalizeOr E windowNormalizeText ngWord) then some ngWord
      else checkLoop E windowNormalizeText settings normalizedQuery rest

/-- The function `checkForNgWords`: `none` is the returned `null`, `some w`
the returned entry. -/
def checkForNgWords (E : Engine) (windowNormalizeText : Option (Str → Str))
    (settings : Settings) (currentNgWords : List Str) (query : Str) : Option Str :=
  if query = [] ∨ currentNgWords = [] then none
  else checkLoop E windowNormalizeText settings
    (normalizeOr E windowNormalizeText query) currentNgWords

/-! ## background.js: the configuration store -/

/-- The object returned by `getState`: every key populated. -/
structure State where
  ngWords : List Str
  settings : Settings
  tempBypassUntil : Option Nat
  blockedCount : Nat
deriving DecidableEq, Repr

/-- A `settings` object in which any of the three keys may be missing. -/
structure PartialSettings where
  useRegex : Option Bool
  useWordBoundaryEN : Option Bool
  showBadge : Option Bool
deriving DecidableEq, Repr

/-- An object with any subset of the four top-level keys: a `SET_STATE`
payload, or the content of `chrome.storage.local`.  For `tempBypassUntil`,
`some none` is the key present with value `null`. -/
structure PartialState where
  ngWords : Option (List Str)
  settings : Option PartialSettings
  tempBypassUntil : Option (Option Nat)
  blockedCount : Option Nat
deriving DecidableEq, Repr

/-- The content of `chrome.storage.local`. -/
abbrev Storage := PartialState

/-- A fully populated settings object, seen as an object with three keys. -/
def Settings.toPartial (s : Settings) : PartialSettings :=
  { useRegex := some s.useRegex
    useWordBoundaryEN := some s.useWordBoundaryEN
    showBadge := some s.showBadge }

/-- A fully populated state, seen as an object with four keys. -/
def State.toPartial (s : State) : PartialState :=
  { ngWords := some s.ngWords
    settings := some s.settings.toPartial
    tempBypassUntil := some s.tempBypassUntil
    blockedCount := some s.blockedCount }

/-- The constant `defaultState`. -/
def defaultState : State :=
  { ngWords := []
    settings := { useRegex := false, useWordBoundaryEN := false, showBadge := true }
    tempBypassUntil := none
    blockedCount := 0 }

/-- The spread `{ ...base, ...update }` of two settings objects. -/
def spreadSettings (base : Settings) (update : PartialSettings) : Settings :=
  { useRegex := update.useRegex.getD base.useRegex
    useWordBoundaryEN := update.useWordBoundaryEN.getD base.useWordBoundaryEN
    showBadge := update.showBadge.getD base.showBadge }

/-- The function `getState`: `chrome.storage.local.get(defaultState)` takes
each key from the storage when stored and from `defaultState` otherwise, then
the settings are spread over the default settings. -/
def getState (storage : Storage) : State :=
  let settings : PartialSettings := storage.settings.getD defaultState.settings.toPartial
  { ngWords := storage.ngWords.getD defaultState.ngWords
    settings := spreadSettings defaultState.settings settings
    tempBypassUntil := storage.tempBypassUntil.getD defaultState.tempBypassUntil
    blockedCount := storage.blockedCount.getD defaultState.blockedCount }

/-- The function `setState`: the storage after
`chrome.storage.local.set(mergedState)` and the returned `mergedState`. -/
def setState (storage : Storage) (newState : PartialState) : Storage × State :=
  let currentState := getState storage
  let mergedState : State :=
    { ngWords := newState.ngWords.getD currentState.ngWords
      settings :=
        match newState.settings with
        | some settings => spreadSettings currentState.settings settings
        | none => currentState.settings
      tempBypassUntil := newState.tempBypassUntil.getD currentState.tempBypassUntil
      blockedCount := newState.blockedCount.getD currentState.blockedCount }
  (mergedState.toPartial, mergedState)

/-- The expression `tempBypassUntil && Date.now() < tempBypassUntil`, as a
condition: `null` and `0` are falsy. -/
def isBypassed (tempBypassUntil : Option Nat) (now : Nat) : Bool :=
  match tempBypassUntil with
  | some t => t != 0 && decide (now < t)
  | none => false

/-- The function `checkBypassStatus`, run at time `now`: the storage afterwards. -/
def checkBypassStatus (storage : Storage) (now : Nat) : Storage :=
  match (getState storage).tempBypassUntil with
  | some t =>
    if t != 0 && decide (now ≥ t) then
      (setState storage
        { ngWords := none, settings := none, tempBypassUntil := some none,
          blockedCount := none }).1
    else storage
  | none => storage

/-! ## JSON values -/

mutual
/-- A value as `JSON.parse` returns it.  A number is given by its decimal
text, the string that `String(n)` returns. -/
inductive Json where
  | null
  | bool (b : Bool)
  | num (text : Str)
  | str (s : Str)
  | arr (items : JsonItems)
  | obj (props : JsonProps)
/-- The elements of a JSON array. -/
inductive JsonItems where
  | nil
  | cons (head : Json) (tail : JsonItems)
/-- The properties of a JSON object, in order. -/
inductive JsonProps where
  | nil
  | cons (key : String) (value : Json) (tail : JsonProps)
end

/-- The elements of an array as a list. -/
def JsonItems.toList : JsonItems → List Json
  | .nil => []
  | .cons x rest => x :: rest.toList

/-- The array holding the elements of a list. -/
def JsonItems.ofList : List Json → JsonItems
  | [] => .nil
  | x :: rest => .cons x (JsonItems.ofList rest)

/-- Own property lookup on the property list of an object. -/
def JsonProps.get (key : String) : JsonProps → Option Json
  | .nil => none
  | .cons k v rest => if k = key then some v else rest.get key

mutual
/-- The conversion `String(v)`. -/
def Json.toJsString : Json → Str
  | .null => "null".toList
  | .bool b => if b then "true".toList else "false".toList
  | .num text => text
  | .str s => s
  | .arr items => JsonItems.join items
  | .obj _ => "[object Object]".toList
/-- The method `Array.prototype.join` with `,`, as `String(array)` calls it:
a `null` element contributes the empty string. -/
def JsonItems.join : JsonItems → Str
  | .nil => []
  | .cons x rest =>
    (match x with
      | .null => []
      | .bool b => if b then "true".toList else "false".toList
      | .num text => text
      | .str s => s
      | .arr items => JsonItems.join items
      | .obj _ => "[object Object]".toList) ++
    (match rest with
      | .nil => []
      | .cons _ _ => ',' :: JsonItems.join rest)
end

/-- Property access `v.key` on a value that is not `null`: `none` is
`undefined`.  Only objects carry the keys read by the import. -/
def Json.prop (v : Json) (key : String) : Option Json :=
  match v with
  | .obj props => props.get key
  | _ => none

/-- The conversion `Boolean(v)` of a property that may be `undefined`. -/
def toBoolean : Option Json → Bool
  | none => false
  | some .null => false
  | some (.bool b) => b
  | some (.num text) => text != "0".toList
  | some (.str s) => s != []
  | some (.arr _) => true
  | some (.obj _) => true

/-- The comparison `v !== false` of a property that may be `undefined`. -/
def notStrictlyFalse : Option Json → Bool
  | some (.bool false) => false
  | _ => true

/-- The pair `JSON.stringify` / `JSON.parse` over the text of a file;
`parse` is `none` when `JSON.parse` throws. -/
structure JsonCodec (Text : Type) where
  stringify : Json → Text
  parse : Text → Option Json

/-! ## options/options.js: the authoring surface -/

/-- The call `text.split('\n')`. -/
def splitLines : Str → List Str
  | [] => [[]]
  | c :: cs =>
    if c = '\n' then [] :: splitLines cs
    else
      match splitLines cs with
      | [] => [[c]]
      | line :: lines => (c :: line) :: lines

/-- The filter `.filter((word, index, arr) => arr.indexOf(word) === index)`. -/
def filterFirstIndex (arr : List Str) : List Str :=
  (arr.enum.filter (fun p => arr.indexOf p.2 == p.1)).map Prod.snd

/-- The function `saveNgWords` on the textarea content `text`: the partial
state handed to `saveState`. -/
def saveNgWords (E : Engine) (windowNormalizeText : Option (Str → Str)) (text : Str) :
    PartialState :=
  if trim text = [] then
    { ngWords := some [], settings := none, tempBypassUntil := none, blockedCount := none }
  else
    let words := filterFirstIndex
      (((splitLines text).map (fun line =>
          match windowNormalizeText with
          | some f => f line
          | none => E.toLowerCase (trim line))).filter (fun word => word.length > 0))
    { ngWords := some words, settings := none, tempBypassUntil := none, blockedCount := none }

/-- The object `exportData` of `exportJson`. -/
def exportData (currentState : State) : Json :=
  .obj (.cons "ngWords" (.arr (JsonItems.ofList (currentState.ngWords.map Json.str)))
    (.cons "settings"
      (.obj (.cons "useRegex" (.bool currentState.settings.useRegex)
        (.cons "useWordBoundaryEN" (.bool currentState.settings.useWordBoundaryEN)
          (.cons "showBadge" (.bool currentState.settings.showBadge) .nil))))
      .nil))

/-- The function `exportJson`: the text of the downloaded file, `none` when
no state has been loaded yet. -/
def exportJson {Text : Type} (codec : JsonCodec Text) (currentState : Option State) :
    Option Text :=
  match currentState with
  | none => none
  | some state => some (codec.stringify (exportData state))

/-- How the `reader.onload` callback of `importJson` ends. -/
inductive ImportResult where
  /-- The `catch` branch: the error alert, nothing saved. -/
  | failed
  /-- The user declined the `confirm` dialog, nothing saved. -/
  | cancelled
  /-- The partial state `newState` was handed to `saveState`. -/
  | saved (newState : PartialState)
deriving DecidableEq, Repr

/-- The block `if (Array.isArray(importedData.ngWords)) { ... }` of
`importJson`: the value of `newState.ngWords`, `none` when the key is not set. -/
def importedNgWords (importedData : Json) : Option (List Str) :=
  match importedData.prop "ngWords" with
  | some (.arr items) =>
    some (filterFirstIndex
      ((items.toList.map (fun word => trim word.toJsString)).filter
        (fun word => word.length > 0)))
  | _ => none

/-- The block `if (typeof importedData.settings === 'object' && ... !== null)`
of `importJson`: the value of `newState.settings`, `none` when the key is not
set.  An array is an object without the three keys. -/
def importedSettings (importedData : Json) : Option PartialSettings :=
  match importedData.prop "settings" with
  | some (.obj props) =>
    some { useRegex := some (toBoolean (props.get "useRegex"))
           useWordBoundaryEN := some (toBoolean (props.get "useWordBoundaryEN"))
           showBadge := some (notStrictlyFalse (props.get "showBadge")) }
  | some (.arr _) =>
    some { useRegex := some false, useWordBoundaryEN := some false, showBadge := some true }
  | _ => none

/-- The `reader.onload` callback of `importJson` on the text of the chosen
file; `confirmed` is the answer to the `confirm` dialog.  Reading a property
of `null` throws, which the `catch` branch handles. -/
def importJson {Text : Type} (codec : JsonCodec Text) (fileText : Text) (confirmed : Bool) :
    ImportResult :=
  match codec.parse fileText with
  | none => .failed
  | some importedData =>
    if !confirmed then .cancelled
    else
      match importedData with
      | .null => .failed
      | _ =>
        .saved { ngWords := importedNgWords importedData
                 settings := importedSettings importedData
                 tempBypassUntil := none
                 blockedCount := none }

/-! ## content/unified-script.js: the page observer -/

/-- The element `document.activeElement`, as far as the script reads it. -/
structure Element where
  /-- Its `tagName` is `INPUT` or `TEXTAREA`. -/
  isInputOrTextarea : Bool
  /-- It matches one of the `searchSelectors` of `setupFormMonitoring`. -/
  matchesSearchSelector : Bool
  /-- The test `isSearchField` of `periodicFallbackCheck`. -/
  isSearchField : Bool
  value : Str
deriving DecidableEq, Repr

/-- What the content script reads from the page it runs in. -/
structure Page where
  /-- The value of `window.location.hostname`. -/
  hostname : Str
  /-- The entries of `new URLSearchParams(window.location.search)`. -/
  searchParams : List (String × Str)
  activeElement : Option Element
deriving DecidableEq, Repr

/-- A submitted form: the entries of `new FormData(form)` and the values of
its `input[type="text"], input[type="search"], textarea` elements. -/
structure Form where
  formData : List (String × Str)
  inputs : List Str
deriving DecidableEq, Repr

/-- The variables of the content script.  `formMonitoring` records that
`setupFormMonitoring` has attached the keydown and submit listeners,
`unifiedMonitoring` that `setupUnifiedMonitoring` has installed the history
hooks, the mutation observer and the 2 s interval. -/
structure Observer where
  currentNgWords : List Str
  currentSettings : Settings
  isInitialized : Bool
  lastCheckedQuery : Str
  formMonitoring : Bool
  unifiedMonitoring : Bool
deriving DecidableEq, Repr

/-- The variables when the script starts; the settings object `{}` has no
flag set. -/
def Observer.start : Observer :=
  { currentNgWords := []
    currentSettings := { useRegex := false, useWordBoundaryEN := false, showBadge := false }
    isInitialized := false
    lastCheckedQuery := []
    formMonitoring := false
    unifiedMonitoring := false }

/-- A message sent with `chrome.runtime.sendMessage`. -/
inductive Message where
  | getState
  | incrementBlocked
  | blockAndRedirect (query matchedWord engine : Str)
deriving DecidableEq, Repr

/-- The expression `a || b` on a string that may be `null`. -/
def orString (a : Option Str) (b : Str) : Str :=
  match a with
  | some s => if s = [] then b else s
  | none => b

/-- The expression `get('q') || get('p') || get('text') || ''` on the entries
of a `URLSearchParams` or a `FormData`. -/
def queryParam (entries : List (String × Str)) : Str :=
  orString (entries.lookup "q") (orString (entries.lookup "p")
    (orString (entries.lookup "text") []))

/-- The function `blockAndRedirect` of the content script. -/
def blockAndRedirect (o : Observer) (page : Page) (query matchedWord engine : Str) :
    Observer × Page × List Message :=
  ({ o with lastCheckedQuery := query },
   { page with
     activeElement := page.activeElement.map (fun el =>
       if el.isInputOrTextarea then { el with value := [] } else el) },
   [Message.incrementBlocked,
    Message.blockAndRedirect query matchedWord
      (if engine = [] then "unknown".toList else engine)])

/-- The shared tail of the four observation handlers:
`const matchedWord = checkForNgWords(query); if (matchedWord) blockAndRedirect(...)`.
An empty string returned by `checkForNgWords` is falsy. -/
def blockIfMatched (E : Engine) (windowNormalizeText : Option (Str → Str))
    (o : Observer) (page : Page) (query : Str) : Observer × Page × List Message :=
  match checkForNgWords E windowNormalizeText o.currentSettings o.currentNgWords query with
  | some matchedWord =>
    if matchedWord = [] then (o, page, [])
    else blockAndRedirect o page query matchedWord page.hostname
  | none => (o, page, [])

/-- The function `checkCurrentUrl`. -/
def checkCurrentUrl (E : Engine) (windowNormalizeText : Option (Str → Str))
    (o : Observer) (page : Page) : Observer × Page × List Message :=
  let query := queryParam page.searchParams
  if query = o.lastCheckedQuery ∨ trim query = [] then (o, page, [])
  else blockIfMatched E windowNormalizeText { o with lastCheckedQuery := query } page query

/-- The keydown listener of `setupElementMonitoring`, on the focused element. -/
def onKeydown (E : Engine) (windowNormalizeText : Option (Str → Str))
    (o : Observer) (page : Page) (key : String) (isComposing : Bool) :
    Observer × Page × List Message :=
  match page.activeElement with
  | some el =>
    if key = "Enter" ∧ isComposing = false then
      let query := trim el.value
      if query ≠ [] ∧ query ≠ o.lastCheckedQuery then
        blockIfMatched E windowNormalizeText o page query
      else (o, page, [])
    else (o, page, [])
  | none => (o, page, [])

/-- The query that `handleFormSubmit` extracts from the form. -/
def formQuery (form : Form) : Str :=
  let query := queryParam form.formData
  if query = [] then
    match form.inputs.find? (fun value => value ≠ [] ∧ trim value ≠ []) with
    | some value => trim value
    | none => []
  else query

/-- The function `handleFormSubmit`. -/
def handleFormSubmit (E : Engine) (windowNormalizeText : Option (Str → Str))
    (o : Observer) (page : Page) (form : Form) : Observer × Page × List Message :=
  let query := formQuery form
  if query ≠ [] ∧ query ≠ o.lastCheckedQuery then
    blockIfMatched E windowNormalizeText o page query
  else (o, page, [])

/-- The second half of `periodicFallbackCheck`: the check of the focused
search field. -/
def checkActiveElement (E : Engine) (windowNormalizeText : Option (Str → Str))
    (o : Observer) (page : Page) : Observer × Page × List Message :=
  match page.activeElement with
  | some el =>
    if el.isInputOrTextarea ∧ el.isSearchField ∧ el.value ≠ [] ∧ trim el.value ≠ [] then
      let query := trim el.value
      if query ≠ o.lastCheckedQuery then blockIfMatched E windowNormalizeText o page query
      else (o, page, [])
    else (o, page, [])
  | none => (o, page, [])

/-- The function `periodicFallbackCheck`: `checkCurrentUrl`, then the check
of the focused search field. -/
def periodicFallbackCheck (E : Engine) (windowNormalizeText : Option (Str → Str))
    (o : Observer) (page : Page) : Observer × Page × List Message :=
  let r := checkCurrentUrl E windowNormalizeText o page
  let r2 := checkActiveElement E windowNormalizeText r.1 r.2.1
  (r2.1, r2.2.1, r.2.2 ++ r2.2.2)

/-- The callback that `initialize` passes to `sendMessage({ type: 'GET_STATE' })`,
run at time `now`; `response` is `none` when `chrome.runtime.lastError` is set
or no response arrives. -/
def onStateResponse (E : Engine) (windowNormalizeText : Option (Str → Str))
    (o : Observer) (page : Page) (response : Option State) (now : Nat) :
    Observer × Page × List Message :=
  match response with
  | none => (o, page, [])
  | some r =>
    let o1 := { o with currentNgWords := r.ngWords, currentSettings := r.settings }
    if !isBypassed r.tempBypassUntil now && decide (r.ngWords.length > 0) then
      checkCurrentUrl E windowNormalizeText
        { o1 with formMonitoring := true, unifiedMonitoring := true } page
    else (o1, page, [])

/-- What can happen to a page observer. -/
inductive Event where
  /-- The call of `initialize` (at script start or on `DOMContentLoaded`). -/
  | initializeCalled
  /-- The `GET_STATE` callback fires at time `now`. -/
  | stateResponse (response : Option State) (now : Nat)
  /-- The window `load` event. -/
  | load
  /-- A `keydown` event on the focused element. -/
  | keydown (key : String) (isComposing : Bool)
  /-- A `submit` event of a form. -/
  | submit (form : Form)
  /-- A call of `history.pushState` or `history.replaceState`, or `popstate`. -/
  | historyChange
  /-- The mutation observer fires; `needsSetup` is the flag it computes. -/
  | mutation (needsSetup : Bool)
  /-- The 2 s interval fires. -/
  | interval
  /-- The user or the site changes the URL, the focus or the field content. -/
  | setPage (page : Page)

/-- One event of the page observer: the handler runs when its listener is
installed.  The short `setTimeout` delays of the handlers are not modelled:
the delayed call follows at once. -/
def step (E : Engine) (windowNormalizeText : Option (Str → Str))
    (o : Observer) (page : Page) : Event → Observer × Page × List Message
  | .initializeCalled =>
    if o.isInitialized then (o, page, [])
    else ({ o with isInitialized := true }, page, [Message.getState])
  | .stateResponse response now => onStateResponse E windowNormalizeText o page response now
  | .load =>
    if o.isInitialized then ({ o with formMonitoring := true }, page, []) else (o, page, [])
  | .keydown key isComposing =>
    match page.activeElement with
    | some el =>
      if o.formMonitoring ∧ el.matchesSearchSelector then
        onKeydown E windowNormalizeText o page key isComposing
      else (o, page, [])
    | none => (o, page, [])
  | .submit form =>
    if o.formMonitoring then handleFormSubmit E windowNormalizeText o page form
    else (o, page, [])
  | .historyChange =>
    if o.unifiedMonitoring then
      let r := checkCurrentUrl E windowNormalizeText o page
      ({ r.1 with formMonitoring := true }, r.2.1, r.2.2)
    else (o, page, [])
  | .mutation needsSetup =>
    if o.unifiedMonitoring ∧ needsSetup then ({ o with formMonitoring := true }, page, [])
    else (o, page, [])
  | .interval =>
    if o.unifiedMonitoring then periodicFallbackCheck E windowNormalizeText o page
    else (o, page, [])
  | .setPage page2 => (o, page2, [])

/-- A sequence of events: the final observer and page, and every message sent. -/
def run (E : Engine) (windowNormalizeText : Option (Str → Str)) :
    Observer → Page → List Event → Observer × Page × List Message
  | o, page, [] => (o, page, [])
  | o, page, ev :: evs =>
    let r := step E windowNormalizeText o page ev
    let r2 := run E windowNormalizeText r.1 r.2.1 evs
    (r2.1, r2.2.1, r.2.2 ++ r2.2.2)

/-! ## What the normaliser needs from the engine -/

/-- The shape of a string in which symbols occur only as single spaces:
every code point is a letter, a number or a space, no two spaces are adjacent,
and with `noLeadingSpace` the string does not start with a space. -/
def Clean (isLN : Char → Bool) : Bool → Str → Prop
  | _, [] => True
  | noLeadingSpace, c :: cs =>
    if isLN c then Clean isLN false cs
    else c = ' ' ∧ noLeadingSpace = false ∧ Clean isLN true cs

/-- The facts about Unicode that the extension relies on, for an engine.
NFKC and lower casing are idempotent.  No white space is a letter or a number,
also after NFKC and lower casing.  A string in NFKC form is still in NFKC form
once it is lower-cased and its symbol runs, combining marks among them, are
replaced by spaces.  Being in lower case is a property of the code points of
a string, and the space has it.  Lower casing a trimmed string leaves it
trimmed. -/
structure Engine.Lawful (E : Engine) : Prop where
  nfkc_nfkc : ∀ s, E.nfkc (E.nfkc s) = E.nfkc s
  toLowerCase_toLowerCase : ∀ s, E.toLowerCase (E.toLowerCase s) = E.toLowerCase s
  whiteSpace_not_letterOrNumber : ∀ c, isWhiteSpace c = true → E.isLetterOrNumber c = false
  whiteSpace_stays : ∀ s : Str, (∀ c ∈ s, isWhiteSpace c = true) →
    ∀ c ∈ E.toLowerCase (E.nfkc s), E.isLetterOrNumber c = false
  nfkc_collapse : ∀ s, E.nfkc s = s →
    E.nfkc (collapse E (E.toLowerCase s)) = collapse E (E.toLowerCase s)
  toLowerCase_of_mem : ∀ s t : Str, E.toLowerCase s = s →
    (∀ c ∈ t, c ∈ s ∨ c = ' ') → E.toLowerCase t = t
  toLowerCase_trim : ∀ s, trim (E.toLowerCase (trim s)) = E.toLowerCase (trim s)

/-! ## A small engine for running examples -/

/-- The characters with a meaning in regular-expression syntax. -/
def isRegexSyntax (c : Char) : Bool :=
  c ∈ ['\\', '^', '$', '.', '|', '?', '*', '+', '(', ')', '[', ']', '{', '}']

/-- An engine for ASCII text.  On ASCII strings NFKC is the identity, lower
casing maps `A`-`Z` to `a`-`z`, and the letters and numbers are the ASCII
alphanumerics.  Its `newRegExp` accepts exactly the patterns without regex
syntax, as case-insensitive literals, and rejects every other pattern. -/
def asciiEngine : Engine where
  nfkc := fun s => s
  toLowerCase := fun s => s.map Char.toLower
  isLetterOrNumber := Char.isAlphanum
  newRegExp := fun p =>
    if p.any isRegexSyntax then none
    else some (fun q => includes (q.map Char.toLower) (p.map Char.toLower))

/-- The identity codec: the text of a file is taken to be the value it denotes. -/
def valueCodec : JsonCodec Json where
  stringify := fun v => v
  parse := fun v => some v

/-- A search page of `www.google.com` without a query in its URL, whose
focused search box holds `banana`. -/
def examplePage : Page :=
  { hostname := "www.google.com".toList
    searchParams := []
    activeElement := some
      { isInputOrTextarea := true, matchesSearchSelector := true, isSearchField := true,
        value := "banana".toList } }

/-- A results page of `www.google.com` for the query `apple`, whose focused
search box holds `banana`. -/
def appleResultsPage : Page :=
  { hostname := "www.google.com".toList
    searchParams := [("q", "apple".toList)]
    activeElement := some
      { isInputOrTextarea := true, matchesSearchSelector := true, isSearchField := true,
        value := "banana".toList } }

/-- A results page of `www.google.com` whose URL carries the query `banana `,
with its trailing space (`?q=banana+`), and on which no field has the focus. -/
def paddedQueryPage : Page :=
  { hostname := "www.google.com".toList
    searchParams := [("q", "banana ".toList)]
    activeElement := none }

/-- The page `paddedQueryPage` once its search box, which holds the text of
the query, has the focus. -/
def paddedQueryFocusedPage : Page :=
  { hostname := "www.google.com".toList
    searchParams := [("q", "banana ".toList)]
    activeElement := some
      { isInputOrTextarea := true, matchesSearchSelector := true, isSearchField := true,
        value := "banana ".toList } }

/-- A storage holding the word list `["banana"]` and nothing else. -/
def exampleStorage : Storage :=
  { ngWords := some ["banana".toList], settings := none, tempBypassUntil := none,
    blockedCount := none }

/-- An observer initialised with the word list `["banana"]` in substring
mode, all its listeners installed, that has not checked any query yet. -/
def exampleObserver : Observer :=
  { currentNgWords := ["banana".toList]
    currentSettings := { useRegex := false, useWordBoundaryEN := false, showBadge := true }
    isInitialized := true
    lastCheckedQuery := []
    formMonitoring := true
    unifiedMonitoring := true }

/-- A configuration whose word list `saveNgWords` wrote, in pattern mode with
the badge hidden, after three blocked queries. -/
def exampleConfig : State :=
  { ngWords := ["banana".toList, "apple".toList]
    settings := { useRegex := true, useWordBoundaryEN := false, showBadge := false }
    tempBypassUntil := none
    blockedCount := 3 }

/-- A storage whose settings object holds `useRegex` only. -/
def partialStorage : Storage :=
  { ngWords := some ["banana".toList]
    settings := some { useRegex := some true, useWordBoundaryEN := none, showBadge := none }
    tempBypassUntil := none
    blockedCount := some 3 }

/-- The update `{ settings: { showBadge: false } }`. -/
def hideBadgeUpdate : PartialState :=
  { ngWords := none
    settings := some { useRegex := none, useWordBoundaryEN := none, showBadge := some false }
    tempBypassUntil := none
    blockedCount := none }

/-- The payload `{ tempBypassUntil: until }` that `tempDisable` saves. -/
def bypassPayload (deadline : Nat) : PartialState :=
  { ngWords := none, settings := none, tempBypassUntil := some (some deadline),
    blockedCount := none }

/-- The events that install listeners whatever the observer holds: the window
`load` event and the `GET_STATE` callback. -/
def Event.isLoadOrResponse : Event → Bool
  | .load => true
  | .stateResponse _ _ => true
  | _ => false

/-! ## The properties the documentation states, as definitions -/

/-- The match the documentation describes for substring mode: the first entry
of the word list whose normalised form is a non-empty substring of the
normalised query. -/
def firstNonEmptyMatch (E : Engine) (wordList : List Str) (query : Str) : Option Str :=
  wordList.find? (fun w =>
    decide (normalizeText E w ≠ [] ∧ normalizeText E w <:+: normalizeText E query))

/-- De-duplication as the documentation describes it: each value is kept at
its first occurrence and dropped at every later one. -/
def firstOccurrences : List Str → List Str
  | [] => []
  | w :: ws => w :: (firstOccurrences ws).filter (fun v => decide (v ≠ w))

/-- The shape of a word list written by the authoring surface: every entry is
trimmed and non-empty, and no entry occurs twice. -/
def Tidy (words : List Str) : Prop :=
  (∀ w ∈ words, trim w = w ∧ w ≠ []) ∧ words.Nodup

/-- An import file whose `ngWords` is a string and whose `settings` object
holds `useRegex: true` and an unknown key `theme`. -/
def exampleImport : Json :=
  .obj (.cons "ngWords" (.str "banana".toList)
    (.cons "settings"
      (.obj (.cons "useRegex" (.bool true) (.cons "theme" (.str "dark".toList) .nil)))
      .nil))

/-- An import file whose `settings` is the array `[1]`: the text
`{"settings":[1]}`. -/
def arraySettingsImport : Json :=
  .obj (.cons "settings" (.arr (.cons (.num "1".toList) .nil)) .nil)

/-! ## URL encoding: `encodeURIComponent`, `decodeURIComponent`, `URLSearchParams`

These are built-ins of the platform, defined here from the ECMAScript and URL
standards.  A byte is a natural number below 256. -/

/-- The UTF-8 bytes of a code point. -/
def utf8Bytes (c : Char) : List Nat :=
  let n := c.toNat
  if n < 0x80 then [n]
  else if n < 0x800 then [0xC0 + n / 64, 0x80 + n % 64]
  else if n < 0x10000 then [0xE0 + n / 4096, 0x80 + n / 64 % 64, 0x80 + n % 64]
  else [0xF0 + n / 262144, 0x80 + n / 4096 % 64, 0x80 + n / 64 % 64, 0x80 + n % 64]

/-- A UTF-8 continuation byte, `10xxxxxx`. -/
def isContinuation (b : Nat) : Bool :=
  0x80 ≤ b && b < 0xC0

/-- The code point that starts a byte sequence, with the number of bytes of
its UTF-8 form; `none` when the sequence does not start with well-formed
UTF-8 (overlong forms, surrogates and values past U+10FFFF are ill-formed). -/
def utf8Head : List Nat → Option (Char × Nat)
  | [] => none
  | b0 :: rest =>
    if b0 < 0x80 then some (Char.ofNat b0, 1)
    else if b0 < 0xC2 then none
    else if b0 < 0xE0 then
      match rest with
      | b1 :: _ =>
        if isContinuation b1 then some (Char.ofNat ((b0 - 0xC0) * 64 + (b1 - 0x80)), 2)
        else none
      | _ => none
    else if b0 < 0xF0 then
      match rest with
      | b1 :: b2 :: _ =>
        if isContinuation b1 && isContinuation b2 &&
            decide (0x800 ≤ (b0 - 0xE0) * 4096 + (b1 - 0x80) * 64 + (b2 - 0x80)) &&
            !(decide (0xD800 ≤ (b0 - 0xE0) * 4096 + (b1 - 0x80) * 64 + (b2 - 0x80)) &&
              decide ((b0 - 0xE0) * 4096 + (b1 - 0x80) * 64 + (b2 - 0x80) < 0xE000)) then
          some (Char.ofNat ((b0 - 0xE0) * 4096 + (b1 - 0x80) * 64 + (b2 - 0x80)), 3)
        else none
      | _ => none
    else if b0 < 0xF5 then
      match rest with
      | b1 :: b2 :: b3 :: _ =>
        if isContinuation b1 && isContinuation b2 && isContinuation b3 &&
            decide (0x10000 ≤
              (b0 - 0xF0) * 262144 + (b1 - 0x80) * 4096 + (b2 - 0x80) * 64 + (b3 - 0x80)) &&
            decide ((b0 - 0xF0) * 262144 + (b1 - 0x80) * 4096 + (b2 - 0x80) * 64 + (b3 - 0x80)
              < 0x110000) then
          some (Char.ofNat
            ((b0 - 0xF0) * 262144 + (b1 - 0x80) * 4096 + (b2 - 0x80) * 64 + (b3 - 0x80)), 4)
        else none
      | _ => none
    else none

/-- UTF-8 decoding of the bytes that follow `skip` bytes already consumed.
With `replacement = none` the decoder is strict and fails on ill-formed
input; with `replacement = some r` it emits `r` for a byte that starts no
well-formed sequence and goes on with the next byte. -/
def utf8DecodeAux (replacement : Option Char) : Nat → List Nat → Option Str
  | _, [] => some []
  | skip + 1, _ :: rest => utf8DecodeAux replacement skip rest
  | 0, b0 :: rest =>
    match utf8Head (b0 :: rest) with
    | some (c, size) => (utf8DecodeAux replacement (size - 1) rest).map (fun s => c :: s)
    | none =>
      match replacement with
      | some r => (utf8DecodeAux replacement 0 rest).map (fun s => r :: s)
      | none => none

/-- UTF-8 decoding: strict as in `decodeURIComponent`, which throws on bytes
that are no UTF-8, or with U+FFFD as replacement as in the URL standard (how
many replacements an ill-formed run yields is not modelled exactly). -/
def utf8Decode (replacement : Option Char) (bytes : List Nat) : Option Str :=
  utf8DecodeAux replacement 0 bytes

/-- The upper-case hexadecimal digit of a number below 16. -/
def hexDigit (n : Nat) : Char :=
  if n < 10 then Char.ofNat (48 + n) else Char.ofNat (55 + n)

/-- The value of a hexadecimal digit of either case. -/
def hexValue (c : Char) : Option Nat :=
  if '0' ≤ c ∧ c ≤ '9' then some (c.toNat - 48)
  else if 'A' ≤ c ∧ c ≤ 'F' then some (c.toNat - 55)
  else if 'a' ≤ c ∧ c ≤ 'f' then some (c.toNat - 87)
  else none

/-- The escape `%XX` of a byte. -/
def percentEncodeByte (b : Nat) : Str :=
  ['%', hexDigit (b / 16), hexDigit (b % 16)]

/-- The byte that two hexadecimal digits at the head of a string denote. -/
def hexPair : Str → Option Nat
  | h1 :: h2 :: _ =>
    match hexValue h1, hexValue h2 with
    | some a, some b => some (16 * a + b)
    | _, _ => none
  | _ => none

/-- Percent-decoding of what follows `skip` code points already consumed. -/
def percentDecodeAux (lenient : Bool) : Nat → Str → Option (List Nat)
  | _, [] => some []
  | skip + 1, _ :: rest => percentDecodeAux lenient skip rest
  | 0, c :: rest =>
    if c = '%' then
      match hexPair rest with
      | some b => (percentDecodeAux lenient 2 rest).map (fun bs => b :: bs)
      | none =>
        if lenient then (percentDecodeAux lenient 0 rest).map (fun bs => 0x25 :: bs)
        else none
    else (percentDecodeAux lenient 0 rest).map (fun bs => utf8Bytes c ++ bs)

/-- Percent-decoding of a string to bytes: `%XX` is the byte `XX`, any other
code point stands for its UTF-8 bytes.  A `%` that two hexadecimal digits do
not follow is an error (`none`) unless `lenient`, where it stands for itself
as the URL standard says. -/
def percentDecode (lenient : Bool) (s : Str) : Option (List Nat) :=
  percentDecodeAux lenient 0 s

/-- The set `uriUnescaped` of ECMAScript: ASCII letters, digits and
`- _ . ! ~ * ' ( )`. -/
def isUriUnescaped (c : Char) : Bool :=
  c.isAlphanum || c ∈ ['-', '_', '.', '!', '~', '*', '\'', '(', ')']

/-- The function `encodeURIComponent` on a well-formed string: a code point
outside `uriUnescaped` becomes the escapes of its UTF-8 bytes. -/
def encodeURIComponent (s : Str) : Str :=
  s.flatMap (fun c =>
    if isUriUnescaped c then [c] else (utf8Bytes c).flatMap percentEncodeByte)

/-- The function `decodeURIComponent`: `none` when it throws `URIError`.
Every escape is replaced by its byte and the bytes must be UTF-8. -/
def decodeURIComponent (s : Str) : Option Str :=
  match percentDecode false s with
  | some bytes => utf8Decode none bytes
  | none => none

/-- The list of name-value pairs of a `URLSearchParams` object. -/
abbrev URLSearchParams := List (Str × Str)

/-- The method `URLSearchParams.prototype.set`: the first pair of that name
gets the value and the other pairs of that name are removed; without such a
pair the new pair is appended. -/
def URLSearchParams.set (params : URLSearchParams) (name value : Str) : URLSearchParams :=
  if params.any (fun p => p.1 = name) then
    match params.span (fun p => p.1 ≠ name) with
    | (before, _ :: after) => before ++ (name, value) :: after.filter (fun p => p.1 ≠ name)
    | (before, []) => before
  else params ++ [(name, value)]

/-- The method `URLSearchParams.prototype.get`: the value of the first pair
of that name, `none` for `null`. -/
def URLSearchParams.get (params : URLSearchParams) (name : Str) : Option Str :=
  (params.find? (fun p => p.1 = name)).map (fun p => p.2)

/-- The bytes that the `application/x-www-form-urlencoded` serialiser leaves
as they are: `* - . _`, ASCII digits and ASCII letters. -/
def isFormSafe (b : Nat) : Bool :=
  b == 0x2A || b == 0x2D || b == 0x2E || b == 0x5F ||
  (0x30 ≤ b && b ≤ 0x39) || (0x41 ≤ b && b ≤ 0x5A) || (0x61 ≤ b && b ≤ 0x7A)

/-- The `application/x-www-form-urlencoded` byte serialiser on one byte: a
space becomes `+`, a safe byte its code point, any other byte its escape. -/
def formEncodeByte (b : Nat) : Str :=
  if b = 0x20 then ['+'] else if isFormSafe b then [Char.ofNat b] else percentEncodeByte b

/-- The `application/x-www-form-urlencoded` byte serialiser on the UTF-8
bytes of a string. -/
def formEncode (s : Str) : Str :=
  (s.flatMap utf8Bytes).flatMap formEncodeByte

/-- The parser's treatment of a name or a value: `+` becomes a space, the
string is percent-decoded, and the bytes are decoded as UTF-8 with U+FFFD
for ill-formed input. -/
def formDecode (s : Str) : Str :=
  match percentDecode true (s.map (fun c => if c = '+' then ' ' else c)) with
  | some bytes => (utf8Decode (some (Char.ofNat 0xFFFD)) bytes).getD []
  | none => []

/-- The method `URLSearchParams.prototype.toString`. -/
def URLSearchParams.toString (params : URLSearchParams) : Str :=
  List.intercalate ['&'] (params.map (fun p => formEncode p.1 ++ '=' :: formEncode p.2))

/-- The pieces of a string between the occurrences of a separator. -/
def splitOn (sep : Char) : Str → List Str
  | [] => [[]]
  | c :: cs =>
    if c = sep then [] :: splitOn sep cs
    else
      match splitOn sep cs with
      | [] => [[c]]
      | piece :: pieces => (c :: piece) :: pieces

/-- The constructor `new URLSearchParams(search)` on a string: a leading `?`
is dropped, the rest is cut at every `&`, empty pieces are skipped, and each
piece is cut at its first `=` into a name and a value. -/
def URLSearchParams.parse (search : Str) : URLSearchParams :=
  let input := match search with
    | '?' :: rest => rest
    | _ => search
  (splitOn '&' input).filterMap (fun piece =>
    if piece = [] then none
    else
      some (formDecode (piece.takeWhile (fun c => c ≠ '=')),
            formDecode ((piece.dropWhile (fun c => c ≠ '=')).drop 1)))

/-- The property `window.location.search` of a page opened at `url`: the
part from the first `?` up to the fragment, empty when no query follows the
`?`.  The URL parser leaves the characters of a serialised
`URLSearchParams` as they are. -/
def locationSearch (url : Str) : Str :=
  let query := (url.takeWhile (fun c => c ≠ '#')).dropWhile (fun c => c ≠ '?')
  if query.length ≤ 1 then [] else query

/-! ## background.js and pages/block.js: the block view -/

/-- The function `blockAndRedirect` of `background.js`: the URL handed to
`chrome.tabs.update`.  `extensionBase` is the prefix that
`chrome.runtime.getURL` puts before a path, `chrome-extension://<id>/`. -/
def Background.blockAndRedirect (extensionBase : Str) (query matchedWord engine : Str) : Str :=
  let params : URLSearchParams := []
  let params := params.set "query".toList (encodeURIComponent query)
  let params := params.set "ngword".toList (encodeURIComponent matchedWord)
  let params := params.set "engine".toList (encodeURIComponent engine)
  extensionBase ++ "pages/block.html?".toList ++ params.toString

/-- The `DOMContentLoaded` handler of `pages/block.js` up to the call of
`displayBlockInfo`: the three values it passes, `none` when
`decodeURIComponent` throws. -/
def BlockPage.readParams (search : Str) : Option (Str × Str × Str) :=
  let params := URLSearchParams.parse search
  match decodeURIComponent (orString (params.get "query".toList) []),
        decodeURIComponent (orString (params.get "ngword".toList) []),
        decodeURIComponent (orString (params.get "engine".toList) []) with
  | some query, some ngword, some engine => some (query, ngword, engine)
  | _, _, _ => none

/-- The prefix of the URLs of an extension. -/
def exampleExtensionBase : Str :=
  "chrome-extension://abcdefghijklmnopabcdefghijklmnop/".toList

/-! ## The Unicode facts behind the normaliser, and an engine with width folding -/

/-- The facts about the engine's built-ins on which the idempotence of
`normalizeText` rests.  None of them mentions the extension's code.
The space is neither a letter nor a number.  NFKC works on each side of a
space and leaves the space in place.  In the lower-cased NFKC form of a
string, every stretch of letters and numbers is in NFKC form: lower casing
can leave NFKC form only through a combining mark, which is neither a letter
nor a number.  A string made of code points of a lower-cased string and of
spaces is in lower case. -/
structure Engine.Unicode (E : Engine) : Prop where
  space_not_letterOrNumber : E.isLetterOrNumber ' ' = false
  nfkc_space : ∀ u v : Str, E.nfkc (u ++ ' ' :: v) = E.nfkc u ++ ' ' :: E.nfkc v
  nfkc_run : ∀ s w : Str, w <:+: E.toLowerCase (E.nfkc s) →
    (∀ c ∈ w, E.isLetterOrNumber c = true) → E.nfkc w = w
  toLowerCase_of_mem : ∀ s t : Str, (∀ c ∈ t, c ∈ E.toLowerCase s ∨ c = ' ') →
    E.toLowerCase t = t

/-- NFKC of one code point, for Basic Latin, the full-width forms, the
ideographic space and the CJK unified ideographs: a full-width form
U+FF01..U+FF5E becomes its Basic Latin counterpart U+0021..U+007E, the
ideographic space U+3000 becomes the space, the others are unchanged. -/
def foldWidth (c : Char) : Char :=
  if 0xFF01 ≤ c.toNat ∧ c.toNat ≤ 0xFF5E then Char.ofNat (c.toNat - 0xFEE0)
  else if c.toNat = 0x3000 then ' '
  else c

/-- Lower casing of one code point of the same repertoire: `A`-`Z` and the
full-width capitals U+FF21..U+FF3A move to their small letters. -/
def lowerWide (c : Char) : Char :=
  if 0xFF21 ≤ c.toNat ∧ c.toNat ≤ 0xFF3A then Char.ofNat (c.toNat + 0x20)
  else c.toLower

/-- The letters and numbers of the same repertoire: the ASCII alphanumerics,
the full-width digits and letters, and the CJK unified ideographs
U+4E00..U+9FFF. -/
def isWideLetterOrNumber (c : Char) : Bool :=
  c.isAlphanum || (0xFF10 ≤ c.toNat && c.toNat ≤ 0xFF19) ||
  (0xFF21 ≤ c.toNat && c.toNat ≤ 0xFF3A) || (0xFF41 ≤ c.toNat && c.toNat ≤ 0xFF5A) ||
  (0x4E00 ≤ c.toNat && c.toNat ≤ 0x9FFF)

/-- An engine for mixed-width text: on strings of Basic Latin, full-width
forms, ideographic spaces and CJK unified ideographs its NFKC, lower casing
and letter-or-number test are those of Unicode.  Its `newRegExp` is that of
`asciiEngine`. -/
def widthEngine : Engine where
  nfkc := fun s => s.map foldWidth
  toLowerCase := fun s => s.map lowerWide
  isLetterOrNumber := isWideLetterOrNumber
  newRegExp := asciiEngine.newRegExp

/-- A mixed-width text: ideographic spaces, full-width letters, digits and
punctuation, an ideograph, and ASCII. -/
def mixedWidthText : Str :=
  "　Ｈｅｌｌｏ，　ＷＯＲＬＤ！！ 猫 ABC１２３ ".toList

/-! ## Theorems -/

/-! ### Characters -/

theorem uint32_le_iff (a b : UInt32) : a ≤ b ↔ a.toNat ≤ b.toNat := by
  rw [UInt32.le_def, BitVec.le_def]; rfl

theorem toNat_ofNat_of_lt (n : Nat) (h : n < 0xd800) : (Char.ofNat n).toNat = n := by
  have hv : n.isValidChar := Or.inl h
  unfold Char.ofNat
  rw [dif_pos hv]
  unfold Char.ofNatAux Char.toNat
  simp [UInt32.toNat]

theorem isAlphanum_iff (c : Char) : c.isAlphanum = true ↔
    (65 ≤ c.toNat ∧ c.toNat ≤ 90) ∨ (97 ≤ c.toNat ∧ c.toNat ≤ 122) ∨
      (48 ≤ c.toNat ∧ c.toNat ≤ 57) := by
  unfold Char.isAlphanum Char.isAlpha Char.isUpper Char.isLower Char.isDigit Char.toNat
  simp only [Bool.or_eq_true, Bool.and_eq_true, decide_eq_true_eq, ge_iff_le, uint32_le_iff]
  have h1 : (65 : UInt32).toNat = 65 := rfl
  have h2 : (90 : UInt32).toNat = 90 := rfl
  have h3 : (97 : UInt32).toNat = 97 := rfl
  have h4 : (122 : UInt32).toNat = 122 := rfl
  have h5 : (48 : UInt32).toNat = 48 := rfl
  have h6 : (57 : UInt32).toNat = 57 := rfl
  rw [h1, h2, h3, h4, h5, h6]
  tauto

theorem toLower_toLower (c : Char) : c.toLower.toLower = c.toLower := by
  unfold Char.toLower
  by_cases h : c.toNat ≥ 65 ∧ c.toNat ≤ 90
  · simp only [h, and_self, if_true]
    have : (Char.ofNat (c.toNat + 32)).toNat = c.toNat + 32 :=
      toNat_ofNat_of_lt _ (by omega)
    rw [this, if_neg (by omega)]
  · simp only [h, if_false]

theorem toLower_of_not_upper (c : Char) (h : ¬ (65 ≤ c.toNat ∧ c.toNat ≤ 90)) :
    c.toLower = c := by
  unfold Char.toLower
  simp only [ge_iff_le, h, if_false]

theorem isWhiteSpace_cases (c : Char) (h : isWhiteSpace c = true) :
    c.toNat < 48 ∨ 122 < c.toNat := by
  unfold isWhiteSpace at h
  simp only [Bool.or_eq_true, Bool.and_eq_true, beq_iff_eq, decide_eq_true_eq] at h
  omega

theorem isAlphanum_of_isWhiteSpace (c : Char) (h : isWhiteSpace c = true) :
    c.isAlphanum = false := by
  have h1 := isWhiteSpace_cases c h
  have h2 := isAlphanum_iff c
  cases hc : c.isAlphanum
  · rfl
  · rw [hc] at h2; have := h2.mp rfl; omega

theorem toLower_of_isWhiteSpace (c : Char) (h : isWhiteSpace c = true) : c.toLower = c :=
  toLower_of_not_upper c (by have := isWhiteSpace_cases c h; omega)

/-! ### Symbol runs and trimming -/

theorem Clean.weaken {isLN : Char → Bool} :
    ∀ {b : Bool} {s : Str}, Clean isLN b s → Clean isLN false s
  | _, [], _ => trivial
  | b, c :: cs, h => by
    unfold Clean at h ⊢
    split
    · simpa [*] using h
    · simp [*] at h; exact ⟨h.1, rfl, h.2.2⟩

theorem clean_replaceSymbolRunsAux {isLN : Char → Bool} (hsp : isLN ' ' = false) :
    ∀ (b : Bool) (s : Str), Clean isLN b (replaceSymbolRunsAux isLN b s)
  | _, [] => trivial
  | b, c :: cs => by
    unfold replaceSymbolRunsAux
    by_cases hc : isLN c = true
    · simp only [hc, if_true]; unfold Clean; simp only [hc, if_true]
      exact clean_replaceSymbolRunsAux hsp false cs
    · simp only [hc, if_false]
      cases b
      · simp only [Bool.false_eq_true, if_false]
        have ih := clean_replaceSymbolRunsAux hsp true cs
        unfold Clean
        simpa [hsp] using ih
      · simp only [if_true]
        exact clean_replaceSymbolRunsAux hsp true cs

theorem replaceSymbolRunsAux_of_clean {isLN : Char → Bool} :
    ∀ (b : Bool) (s : Str), Clean isLN b s → replaceSymbolRunsAux isLN b s = s
  | _, [], _ => rfl
  | b, c :: cs, h => by
    unfold replaceSymbolRunsAux
    unfold Clean at h
    by_cases hc : isLN c = true
    · simp only [hc, if_true] at h ⊢
      rw [replaceSymbolRunsAux_of_clean false cs h]
    · simp only [hc, if_false] at h ⊢
      obtain ⟨h1, h2, h3⟩ := h
      subst h2
      simp only [Bool.false_eq_true, if_false]
      rw [replaceSymbolRunsAux_of_clean true cs h3, h1]

theorem Clean.tail {isLN : Char → Bool} {b : Bool} {c : Char} {cs : Str}
    (h : Clean isLN b (c :: cs)) : Clean isLN false cs := by
  unfold Clean at h
  split at h
  · exact h
  · exact h.2.2.weaken

theorem Clean.dropWhile {isLN : Char → Bool} (p : Char → Bool) :
    ∀ {b : Bool} {s : Str}, Clean isLN b s → Clean isLN false (s.dropWhile p)
  | _, [], _ => trivial
  | b, c :: cs, h => by
    rw [List.dropWhile_cons]
    split
    · exact Clean.dropWhile p h.tail
    · exact h.weaken

theorem Clean.of_append {isLN : Char → Bool} :
    ∀ {b : Bool} {s t : Str}, Clean isLN b (s ++ t) → Clean isLN b s
  | _, [], _, _ => trivial
  | b, c :: cs, t, h => by
    rw [List.cons_append] at h
    unfold Clean at h ⊢
    split
    · simp only [*, if_true] at h; exact Clean.of_append h
    · simp only [*, if_false] at h; exact ⟨h.1, h.2.1, Clean.of_append h.2.2⟩

theorem Clean.rdropWhile {isLN : Char → Bool} (p : Char → Bool) {b : Bool} {s : Str}
    (h : Clean isLN b s) : Clean isLN b (s.rdropWhile p) := by
  obtain ⟨t, ht⟩ := List.rdropWhile_prefix p s
  rw [← ht] at h
  exact h.of_append

theorem dropWhile_rdropWhile_dropWhile (p : Char → Bool) (s : Str) :
    ((s.dropWhile p).rdropWhile p).dropWhile p = (s.dropWhile p).rdropWhile p := by
  obtain ⟨t, ht⟩ := List.rdropWhile_prefix p (s.dropWhile p)
  cases hd : (s.dropWhile p).rdropWhile p with
  | nil => rfl
  | cons a l =>
    rw [hd] at ht
    have hmem : (s.dropWhile p).head? = some a := by rw [← ht]; rfl
    have := List.head?_dropWhile_not p s
    rw [hmem] at this
    simp only [Option.mem_def, forall_eq', Option.some.injEq] at this
    rw [List.dropWhile_cons]
    simp [this]

theorem trim_trim (s : Str) : trim (trim s) = trim s := by
  unfold trim
  rw [dropWhile_rdropWhile_dropWhile]
  exact List.rdropWhile_idempotent _ _

theorem mem_replaceSymbolRunsAux {isLN : Char → Bool} {x : Char} :
    ∀ (b : Bool) (s : Str), x ∈ replaceSymbolRunsAux isLN b s → x ∈ s ∨ x = ' '
  | _, [], h => by simp [replaceSymbolRunsAux] at h
  | b, c :: cs, h => by
    unfold replaceSymbolRunsAux at h
    split at h
    · rcases List.mem_cons.mp h with h | h
      · exact Or.inl (h ▸ List.mem_cons_self _ _)
      · exact (mem_replaceSymbolRunsAux false cs h).imp (List.mem_cons_of_mem _) id
    · split at h
      · exact (mem_replaceSymbolRunsAux true cs h).imp (List.mem_cons_of_mem _) id
      · rcases List.mem_cons.mp h with h | h
        · exact Or.inr h
        · exact (mem_replaceSymbolRunsAux true cs h).imp (List.mem_cons_of_mem _) id

theorem mem_trim {x : Char} {s : Str} (h : x ∈ trim s) : x ∈ s :=
  (List.dropWhile_sublist _).subset ((List.rdropWhile_prefix _ _).sublist.subset h)

theorem mem_collapse {E : Engine} {x : Char} {s : Str} (h : x ∈ collapse E s) :
    x ∈ s ∨ x = ' ' :=
  mem_replaceSymbolRunsAux false s (mem_trim h)

theorem Engine.Lawful.space {E : Engine} (hE : E.Lawful) : E.isLetterOrNumber ' ' = false :=
  hE.whiteSpace_not_letterOrNumber ' ' (by decide)

theorem clean_collapse {E : Engine} (hE : E.Lawful) (s : Str) :
    Clean E.isLetterOrNumber false (collapse E s) := by
  unfold collapse trim
  exact ((clean_replaceSymbolRunsAux hE.space false s).dropWhile _).rdropWhile _

theorem collapse_collapse {E : Engine} (hE : E.Lawful) (s : Str) :
    collapse E (collapse E s) = collapse E s := by
  have h := replaceSymbolRunsAux_of_clean false _ (clean_collapse hE s)
  show trim (replaceSymbolRuns E.isLetterOrNumber (collapse E s)) = collapse E s
  unfold replaceSymbolRuns
  rw [h]
  exact trim_trim _

theorem normalizeText_eq_collapse (E : Engine) (x : Str) :
    normalizeText E x = collapse E (E.toLowerCase (E.nfkc x)) := rfl

/-- Every output of `normalizeText` is left unchanged by `normalizeText`. -/
theorem normalizeText_fixed {E : Engine} (hE : E.Lawful) (x : Str) :
    normalizeText E (normalizeText E x) = normalizeText E x := by
  have h1 : E.nfkc (normalizeText E x) = normalizeText E x :=
    hE.nfkc_collapse _ (hE.nfkc_nfkc x)
  have h2 : E.toLowerCase (normalizeText E x) = normalizeText E x :=
    hE.toLowerCase_of_mem _ _ (hE.toLowerCase_toLowerCase _) (fun _ hc => mem_collapse hc)
  rw [normalizeText_eq_collapse E (normalizeText E x), h1, h2, normalizeText_eq_collapse]
  exact collapse_collapse hE _

/-- Symbols only: the collapsed string is empty. -/
theorem collapse_eq_nil_of_symbols {E : Engine} (s : Str)
    (h : ∀ c ∈ s, E.isLetterOrNumber c = false) : collapse E s = [] := by
  have key : ∀ (b : Bool) (s : Str), (∀ c ∈ s, E.isLetterOrNumber c = false) →
      replaceSymbolRunsAux E.isLetterOrNumber b s = [] ∨
      replaceSymbolRunsAux E.isLetterOrNumber b s = [' '] := by
    intro b s
    induction s generalizing b with
    | nil => intro _; exact Or.inl rfl
    | cons c cs ih =>
      intro hs
      have hc := hs c (List.mem_cons_self _ _)
      have hcs : ∀ d ∈ cs, E.isLetterOrNumber d = false :=
        fun d hd => hs d (List.mem_cons_of_mem _ hd)
      have htrue : replaceSymbolRunsAux E.isLetterOrNumber true cs = [] := by
        clear ih
        induction cs with
        | nil => rfl
        | cons d ds ih2 =>
          have hd := hcs d (List.mem_cons_self _ _)
          unfold replaceSymbolRunsAux
          simp only [hd, Bool.false_eq_true, if_false, if_true]
          exact ih2 (fun e he => hs e (by
            rcases List.mem_cons.mp he with h | h
            · exact h ▸ List.mem_cons_self _ _
            · exact List.mem_cons_of_mem _ (List.mem_cons_of_mem _ h)))
            (fun e he => hcs e (List.mem_cons_of_mem _ he))
      unfold replaceSymbolRunsAux
      simp only [hc, Bool.false_eq_true, if_false]
      cases b <;> simp [htrue]
  unfold collapse replaceSymbolRuns
  rcases key false s h with h | h <;> rw [h] <;> decide

/-! ### The example engine satisfies the laws -/

theorem map_eq_self_iff {f : Char → Char} :
    ∀ s : Str, s.map f = s ↔ ∀ c ∈ s, f c = c
  | [] => by simp
  | c :: cs => by
    simp only [List.map_cons, List.cons.injEq, List.mem_cons, forall_eq_or_imp,
      map_eq_self_iff cs]

theorem isWhiteSpace_toLower (c : Char) : isWhiteSpace c.toLower = isWhiteSpace c := by
  by_cases h : 65 ≤ c.toNat ∧ c.toNat ≤ 90
  · have h1 : c.toLower.toNat = c.toNat + 32 := by
      unfold Char.toLower
      simp only [ge_iff_le, h, and_self, if_true]
      exact toNat_ofNat_of_lt _ (by omega)
    have h2 : isWhiteSpace c = false := by
      cases hc : isWhiteSpace c
      · rfl
      · have := isWhiteSpace_cases c hc; omega
    have h3 : isWhiteSpace c.toLower = false := by
      cases hc : isWhiteSpace c.toLower
      · rfl
      · have := isWhiteSpace_cases _ hc; omega
    rw [h2, h3]
  · rw [toLower_of_not_upper c h]

theorem trim_map_toLower (s : Str) : trim (s.map Char.toLower) = (trim s).map Char.toLower := by
  have hcomp : (isWhiteSpace ∘ Char.toLower) = isWhiteSpace :=
    funext (fun c => isWhiteSpace_toLower c)
  unfold trim
  rw [List.dropWhile_map, hcomp]
  unfold List.rdropWhile
  rw [← List.map_reverse, List.dropWhile_map, hcomp, List.map_reverse]

theorem asciiEngine_lawful : asciiEngine.Lawful where
  nfkc_nfkc := fun _ => rfl
  toLowerCase_toLowerCase := fun s => by
    show (s.map Char.toLower).map Char.toLower = s.map Char.toLower
    rw [List.map_map]
    exact List.map_congr_left (fun c _ => toLower_toLower c)
  whiteSpace_not_letterOrNumber := isAlphanum_of_isWhiteSpace
  whiteSpace_stays := fun s hs c hc => by
    obtain ⟨d, hd, rfl⟩ := List.mem_map.mp hc
    rw [toLower_of_isWhiteSpace d (hs d hd)]
    exact isAlphanum_of_isWhiteSpace d (hs d hd)
  nfkc_collapse := fun _ _ => rfl
  toLowerCase_of_mem := fun s t hs ht => by
    have h := (map_eq_self_iff s).mp hs
    refine (map_eq_self_iff t).mpr (fun c hc => ?_)
    rcases ht c hc with hc | hc
    · exact h c hc
    · subst hc; decide
  toLowerCase_trim := fun s => by
    show trim ((trim s).map Char.toLower) = (trim s).map Char.toLower
    rw [trim_map_toLower, trim_trim]

/-! ### Idempotence of the normaliser -/

theorem mem_of_clean {isLN : Char → Bool} :
    ∀ (b : Bool) (s : Str), Clean isLN b s → ∀ c ∈ s, isLN c = true ∨ c = ' '
  | _, [], _, c, hc => absurd hc (List.not_mem_nil c)
  | b, d :: ds, h, c, hc => by
    unfold Clean at h
    by_cases hd : isLN d = true
    · rw [if_pos hd] at h
      rcases List.mem_cons.mp hc with rfl | hc
      · exact Or.inl hd
      · exact mem_of_clean false ds h c hc
    · rw [if_neg hd] at h
      rcases List.mem_cons.mp hc with rfl | hc
      · exact Or.inr h.1
      · exact mem_of_clean true ds h.2.2 c hc

/-- A stretch of letters and numbers at the start of the text after the
replacement of symbol runs stands at the start of the text before it. -/
theorem prefix_of_prefix_replaceSymbolRunsAux {isLN : Char → Bool}
    (hspace : isLN ' ' = false) :
    ∀ (s w : Str), (∀ c ∈ w, isLN c = true) →
      w <+: replaceSymbolRunsAux isLN false s → w <+: s
  | [], w, _, h => by simpa [replaceSymbolRunsAux] using h
  | d :: ds, w, hw, h => by
    unfold replaceSymbolRunsAux at h
    cases w with
    | nil => exact List.nil_prefix
    | cons e es =>
      by_cases hd : isLN d = true
      · rw [if_pos hd] at h
        obtain ⟨rfl, h2⟩ := List.cons_prefix_cons.mp h
        exact List.cons_prefix_cons.mpr ⟨rfl,
          prefix_of_prefix_replaceSymbolRunsAux hspace ds es
            (fun c hc => hw c (List.mem_cons_of_mem _ hc)) h2⟩
      · rw [if_neg hd] at h
        simp only [Bool.false_eq_true, if_false] at h
        obtain ⟨he, _⟩ := List.cons_prefix_cons.mp h
        have := hw e (List.mem_cons_self _ _)
        rw [he, hspace] at this
        exact absurd this (by decide)

/-- A stretch of letters and numbers of the text after the replacement of
symbol runs is a stretch of the text before it. -/
theorem infix_of_infix_replaceSymbolRunsAux {isLN : Char → Bool}
    (hspace : isLN ' ' = false) :
    ∀ (b : Bool) (s w : Str), (∀ c ∈ w, isLN c = true) →
      w <:+: replaceSymbolRunsAux isLN b s → w <:+: s
  | _, [], w, _, h => by simpa [replaceSymbolRunsAux] using h
  | b, d :: ds, w, hw, h => by
    unfold replaceSymbolRunsAux at h
    by_cases hd : isLN d = true
    · rw [if_pos hd] at h
      rcases List.infix_cons_iff.mp h with h | h
      · have h2 : w <+: replaceSymbolRunsAux isLN false (d :: ds) := by
          unfold replaceSymbolRunsAux
          rw [if_pos hd]
          exact h
        exact (prefix_of_prefix_replaceSymbolRunsAux hspace (d :: ds) w hw h2).isInfix
      · exact List.infix_cons
          (infix_of_infix_replaceSymbolRunsAux hspace false ds w hw h)
    · rw [if_neg hd] at h
      cases b with
      | true =>
        simp only [if_true] at h
        exact List.infix_cons (infix_of_infix_replaceSymbolRunsAux hspace true ds w hw h)
      | false =>
        simp only [Bool.false_eq_true, if_false] at h
        rcases List.infix_cons_iff.mp h with h | h
        · cases w with
          | nil => exact List.nil_infix
          | cons e es =>
            obtain ⟨he, _⟩ := List.cons_prefix_cons.mp h
            have := hw e (List.mem_cons_self _ _)
            rw [he, hspace] at this
            exact absurd this (by decide)
        · exact List.infix_cons (infix_of_infix_replaceSymbolRunsAux hspace true ds w hw h)

theorem trim_isInfix (s : Str) : trim s <:+: s := by
  unfold trim
  have h1 : (s.dropWhile isWhiteSpace).rdropWhile isWhiteSpace <+: s.dropWhile isWhiteSpace :=
    List.rdropWhile_prefix _ _
  have h2 : s.dropWhile isWhiteSpace <:+ s := List.dropWhile_suffix _
  exact h1.isInfix.trans h2.isInfix

/-- A stretch of letters and numbers of `collapse s` is a stretch of `s`. -/
theorem infix_of_infix_collapse {E : Engine} (hspace : E.isLetterOrNumber ' ' = false)
    (s w : Str) (hw : ∀ c ∈ w, E.isLetterOrNumber c = true) (h : w <:+: collapse E s) :
    w <:+: s :=
  infix_of_infix_replaceSymbolRunsAux hspace false s w hw (h.trans (trim_isInfix _))

/-- A text of letters, numbers and single spaces all of whose stretches of
letters and numbers are in NFKC form is in NFKC form. -/
theorem nfkc_of_runs {E : Engine} (hE : E.Unicode) :
    ∀ (y u : Str), (∀ c ∈ u, E.isLetterOrNumber c = true) →
      (∀ c ∈ y, E.isLetterOrNumber c = true ∨ c = ' ') →
      (∀ w, w <:+: u ++ y → (∀ c ∈ w, E.isLetterOrNumber c = true) → E.nfkc w = w) →
      E.nfkc (u ++ y) = u ++ y
  | [], u, hu, _, hw => hw (u ++ []) (List.infix_refl _) (by simpa using hu)
  | c :: cs, u, hu, hy, hw => by
    have hcs : ∀ d ∈ cs, E.isLetterOrNumber d = true ∨ d = ' ' :=
      fun d hd => hy d (List.mem_cons_of_mem _ hd)
    by_cases hc : E.isLetterOrNumber c = true
    · have h := nfkc_of_runs hE cs (u ++ [c])
        (by
          intro d hd
          rcases List.mem_append.mp hd with hd | hd
          · exact hu d hd
          · rw [List.mem_singleton.mp hd]; exact hc)
        hcs (by simpa using hw)
      simpa using h
    · have hsp : c = ' ' := (hy c (List.mem_cons_self _ _)).resolve_left hc
      subst hsp
      rw [hE.nfkc_space]
      have h1 : E.nfkc u = u :=
        hw u ⟨[], ' ' :: cs, by simp⟩ hu
      have h2 : E.nfkc cs = cs := by
        have h := nfkc_of_runs hE cs [] (fun d hd => absurd hd (List.not_mem_nil d)) hcs
          (fun w hwi hwl => hw w (by
            obtain ⟨a, b, hab⟩ := hwi
            rw [List.nil_append] at hab
            exact ⟨u ++ ' ' :: a, b, by simp [← hab]⟩) hwl)
        simpa using h
      rw [h1, h2]

theorem clean_collapse_of_space {E : Engine} (hspace : E.isLetterOrNumber ' ' = false)
    (s : Str) : Clean E.isLetterOrNumber false (collapse E s) := by
  unfold collapse trim
  exact ((clean_replaceSymbolRunsAux hspace false s).dropWhile _).rdropWhile _

theorem collapse_collapse_of_space {E : Engine} (hspace : E.isLetterOrNumber ' ' = false)
    (s : Str) : collapse E (collapse E s) = collapse E s := by
  have h := replaceSymbolRunsAux_of_clean false _ (clean_collapse_of_space hspace s)
  show trim (replaceSymbolRuns E.isLetterOrNumber (collapse E s)) = collapse E s
  unfold replaceSymbolRuns
  rw [h]
  exact trim_trim _

/-- The output of `normalizeText` is in NFKC form. -/
theorem nfkc_normalizeText {E : Engine} (hE : E.Unicode) (x : Str) :
    E.nfkc (normalizeText E x) = normalizeText E x := by
  have h := nfkc_of_runs hE (normalizeText E x) []
    (fun d hd => absurd hd (List.not_mem_nil d))
    (mem_of_clean false _ (clean_collapse_of_space hE.space_not_letterOrNumber _))
    (fun w hwi hwl => hE.nfkc_run x w
      (infix_of_infix_collapse hE.space_not_letterOrNumber _ w hwl (by simpa using hwi)) hwl)
  simpa using h

/-- The output of `normalizeText` is in lower case. -/
theorem toLowerCase_normalizeText {E : Engine} (hE : E.Unicode) (x : Str) :
    E.toLowerCase (normalizeText E x) = normalizeText E x :=
  hE.toLowerCase_of_mem (E.nfkc x) _ (fun _ hc => mem_collapse hc)

/-! ### The engine with width folding satisfies the Unicode facts -/

theorem toNat_ofNat_of_high (n : Nat) (h1 : 0xdfff < n) (h2 : n < 0x110000) :
    (Char.ofNat n).toNat = n := by
  have hv : n.isValidChar := Or.inr ⟨h1, h2⟩
  unfold Char.ofNat
  rw [dif_pos hv]
  unfold Char.ofNatAux Char.toNat
  simp [UInt32.toNat]

theorem toNat_toLower (c : Char) :
    c.toLower.toNat = if 65 ≤ c.toNat ∧ c.toNat ≤ 90 then c.toNat + 32 else c.toNat := by
  by_cases h : 65 ≤ c.toNat ∧ c.toNat ≤ 90
  · rw [if_pos h]
    unfold Char.toLower
    simp only [ge_iff_le, h, and_self, if_true]
    exact toNat_ofNat_of_lt _ (by omega)
  · rw [if_neg h, toLower_of_not_upper c h]

theorem toNat_foldWidth (c : Char) :
    (foldWidth c).toNat =
      if 0xFF01 ≤ c.toNat ∧ c.toNat ≤ 0xFF5E then c.toNat - 0xFEE0
      else if c.toNat = 0x3000 then 0x20 else c.toNat := by
  unfold foldWidth
  by_cases h : 0xFF01 ≤ c.toNat ∧ c.toNat ≤ 0xFF5E
  · rw [if_pos h, if_pos h]
    exact toNat_ofNat_of_lt _ (by omega)
  · rw [if_neg h, if_neg h]
    by_cases h2 : c.toNat = 0x3000
    · rw [if_pos h2, if_pos h2]; rfl
    · rw [if_neg h2, if_neg h2]

theorem toNat_lowerWide (c : Char) :
    (lowerWide c).toNat =
      if 0xFF21 ≤ c.toNat ∧ c.toNat ≤ 0xFF3A then c.toNat + 0x20
      else if 65 ≤ c.toNat ∧ c.toNat ≤ 90 then c.toNat + 32 else c.toNat := by
  unfold lowerWide
  by_cases h : 0xFF21 ≤ c.toNat ∧ c.toNat ≤ 0xFF3A
  · rw [if_pos h, if_pos h]
    exact toNat_ofNat_of_high _ (by omega) (by omega)
  · rw [if_neg h, if_neg h]
    exact toNat_toLower c

/-- A code point outside the full-width forms and the ideographic space is
its own NFKC form. -/
theorem foldWidth_of_narrow (c : Char)
    (h : ¬ (0xFF01 ≤ c.toNat ∧ c.toNat ≤ 0xFF5E) ∧ c.toNat ≠ 0x3000) : foldWidth c = c := by
  unfold foldWidth
  rw [if_neg h.1, if_neg h.2]

/-- Lower casing the NFKC form of a code point gives a code point in NFKC
form. -/
theorem foldWidth_lowerWide_foldWidth (c : Char) :
    foldWidth (lowerWide (foldWidth c)) = lowerWide (foldWidth c) := by
  apply foldWidth_of_narrow
  have h1 := toNat_foldWidth c
  have h2 := toNat_lowerWide (foldWidth c)
  split_ifs at h1 <;> split_ifs at h2 <;> omega

theorem lowerWide_of_small (c : Char)
    (h : ¬ (0xFF21 ≤ c.toNat ∧ c.toNat ≤ 0xFF3A) ∧ ¬ (65 ≤ c.toNat ∧ c.toNat ≤ 90)) :
    lowerWide c = c := by
  unfold lowerWide
  rw [if_neg h.1]
  exact toLower_of_not_upper c h.2

theorem lowerWide_lowerWide (c : Char) : lowerWide (lowerWide c) = lowerWide c := by
  apply lowerWide_of_small
  have h := toNat_lowerWide c
  split_ifs at h <;> omega

theorem widthEngine_unicode : widthEngine.Unicode where
  space_not_letterOrNumber := by decide
  nfkc_space := fun u v => by
    show (u ++ ' ' :: v).map foldWidth = u.map foldWidth ++ ' ' :: v.map foldWidth
    rw [List.map_append, List.map_cons]
    rfl
  nfkc_run := fun s w hw _ => by
    show w.map foldWidth = w
    refine (map_eq_self_iff w).mpr (fun c hc => ?_)
    have hc2 : c ∈ (s.map foldWidth).map lowerWide := hw.subset hc
    obtain ⟨d, hd, rfl⟩ := List.mem_map.mp hc2
    obtain ⟨e, _, rfl⟩ := List.mem_map.mp hd
    exact foldWidth_lowerWide_foldWidth e
  toLowerCase_of_mem := fun s t ht => by
    show t.map lowerWide = t
    refine (map_eq_self_iff t).mpr (fun c hc => ?_)
    rcases ht c hc with hc | hc
    · have hc2 : c ∈ s.map lowerWide := hc
      obtain ⟨d, _, rfl⟩ := List.mem_map.mp hc2
      exact lowerWide_lowerWide d
    · subst hc; decide

/-- C3: `normalizeText` is total and idempotent.  It is a function defined on
every string, and for every engine whose built-ins satisfy the Unicode facts
of `Engine.Unicode` and every string `x`, empty, made of symbols only or of
mixed width, normalising `normalizeText x` again returns it unchanged: the
output is in NFKC form and in lower case, its symbol runs are single spaces,
and it is trimmed. -/
theorem normalizeText_idempotent (E : Engine) (hE : E.Unicode) (x : Str) :
    ∃ y : Str, normalizeText E x = y ∧ normalizeText E (normalizeText E x) = y := by
  refine ⟨normalizeText E x, rfl, ?_⟩
  rw [normalizeText_eq_collapse E (normalizeText E x), nfkc_normalizeText hE x,
    toLowerCase_normalizeText hE x, normalizeText_eq_collapse]
  exact collapse_collapse_of_space hE.space_not_letterOrNumber _

/-- C3 at the engine with width folding and a text of mixed width, with
full-width letters, digits and punctuation, ideographic spaces and an
ideograph: its normal form is `hello world 猫 abc123`. -/
theorem normalizeText_idempotent_witness :
    normalizeText widthEngine mixedWidthText = "hello world 猫 abc123".toList ∧
    ∃ y : Str, normalizeText widthEngine mixedWidthText = y ∧
      normalizeText widthEngine (normalizeText widthEngine mixedWidthText) = y :=
  ⟨by decide, normalizeText_idempotent widthEngine widthEngine_unicode mixedWidthText⟩

/-! ### The matcher in substring mode -/

theorem includes_iff (haystack needle : Str) :
    includes haystack needle = true ↔ needle <:+: haystack := by
  unfold includes; exact decide_eq_true_iff

theorem includes_nil (haystack : Str) : includes haystack [] = true :=
  (includes_iff _ _).mpr List.nil_infix

theorem normalizeText_nil {E : Engine} (hE : E.Lawful) : normalizeText E [] = [] := by
  rw [normalizeText_eq_collapse]
  exact collapse_eq_nil_of_symbols _ (hE.whiteSpace_stays [] (fun _ h => by simp at h))

/-- In substring mode the loop returns the first entry whose normalised form
occurs in the normalised query. -/
theorem checkLoop_substring (E : Engine) (win : Option (Str → Str)) (settings : Settings)
    (hs : settings.useRegex = false) (nq : Str) :
    ∀ L : List Str, checkLoop E win settings nq L =
      L.find? (fun w => includes nq (normalizeOr E win w))
  | [] => rfl
  | w :: rest => by
    unfold checkLoop
    rw [List.find?_cons]
    simp only [hs, Bool.false_eq_true, if_false]
    cases includes nq (normalizeOr E win w)
    · simp only [Bool.false_eq_true, if_false]
      exact checkLoop_substring E win settings hs nq rest
    · simp only [if_true]

theorem find?_congr_mem {α : Type} {p q : α → Bool} :
    ∀ {l : List α}, (∀ a ∈ l, p a = q a) → l.find? p = l.find? q
  | [], _ => rfl
  | a :: l, h => by
    rw [List.find?_cons, List.find?_cons, h a (List.mem_cons_self _ _),
      find?_congr_mem (fun b hb => h b (List.mem_cons_of_mem _ hb))]

/-- C1 as stated fails: with the word list `["!!!", "banana"]` and the query
`"banana"`, substring mode returns the all-symbol entry `"!!!"`, whose
normalised form is empty, although `"banana"` is the first entry whose
normalised form is a non-empty substring of the normalised query. -/
theorem checkForNgWords_substring_counterexample :
    checkForNgWords asciiEngine (some (normalizeText asciiEngine))
        { useRegex := false, useWordBoundaryEN := false, showBadge := true }
        ["!!!".toList, "banana".toList] "banana".toList = some "!!!".toList ∧
      firstNonEmptyMatch asciiEngine ["!!!".toList, "banana".toList] "banana".toList
        = some "banana".toList := by
  decide

/-- C1, amended: in substring mode with `normalizeText` available, for every
query and every word list none of whose entries has an empty normalised form,
`checkForNgWords` returns the first entry, in list order, whose normalised
form is a non-empty substring of the normalised query, and it returns no
match exactly when no entry is one. -/
theorem checkForNgWords_substring_first_match (E : Engine) (hE : E.Lawful)
    (settings : Settings) (hs : settings.useRegex = false)
    (wordList : List Str) (query : Str)
    (hL : ∀ w ∈ wordList, normalizeText E w ≠ []) :
    checkForNgWords E (some (normalizeText E)) settings wordList query
        = firstNonEmptyMatch E wordList query ∧
      (checkForNgWords E (some (normalizeText E)) settings wordList query = none ↔
        ∀ w ∈ wordList,
          ¬ (normalizeText E w ≠ [] ∧ normalizeText E w <:+: normalizeText E query)) := by
  have hmain : checkForNgWords E (some (normalizeText E)) settings wordList query
      = firstNonEmptyMatch E wordList query := by
    unfold checkForNgWords firstNonEmptyMatch
    by_cases hq : query = []
    · subst hq
      rw [if_pos (Or.inl rfl), eq_comm, List.find?_eq_none]
      intro w hw
      rw [normalizeText_nil hE]
      simp only [decide_eq_true_eq, not_and]
      intro hne hinf
      exact hne (List.eq_nil_of_infix_nil hinf)
    · by_cases hl : wordList = []
      · subst hl; simp
      · rw [if_neg (by tauto), checkLoop_substring E _ settings hs]
        refine find?_congr_mem (fun w hw => ?_)
        show includes (normalizeText E query) (normalizeText E w) = _
        unfold includes
        simp [hL w hw]
  refine ⟨hmain, ?_⟩
  rw [hmain]
  unfold firstNonEmptyMatch
  rw [List.find?_eq_none]
  simp only [decide_eq_true_eq]

/-- The amended C1 at the documentation's example: word list `["banana"]`,
query `"I like BANANA!!"`. -/
theorem checkForNgWords_substring_first_match_witness :
    checkForNgWords asciiEngine (some (normalizeText asciiEngine))
        { useRegex := false, useWordBoundaryEN := false, showBadge := true }
        ["banana".toList] "I like BANANA!!".toList
        = firstNonEmptyMatch asciiEngine ["banana".toList] "I like BANANA!!".toList ∧
      (checkForNgWords asciiEngine (some (normalizeText asciiEngine))
        { useRegex := false, useWordBoundaryEN := false, showBadge := true }
        ["banana".toList] "I like BANANA!!".toList = none ↔
        ∀ w ∈ ["banana".toList],
          ¬ (normalizeText asciiEngine w ≠ [] ∧
            normalizeText asciiEngine w <:+: normalizeText asciiEngine "I like BANANA!!".toList)) :=
  checkForNgWords_substring_first_match asciiEngine asciiEngine_lawful _ rfl _ _ (by decide)

/-- C2, the code at the failing inputs: the all-symbol entry `"!!!"` has an
empty normalised form and substring mode returns it for the query `"apple"`;
in pattern mode the entry `"("` does not compile, its normalised form is
empty, and the fallback returns it for the same query.  `importJson` stores
the entry `"!!!"` as it is, while `saveNgWords` drops it. -/
theorem checkForNgWords_returns_empty_normalized_entry :
    normalizeText asciiEngine "!!!".toList = [] ∧
      checkForNgWords asciiEngine (some (normalizeText asciiEngine))
        { useRegex := false, useWordBoundaryEN := false, showBadge := true }
        ["!!!".toList] "apple".toList = some "!!!".toList ∧
      (asciiEngine.newRegExp
        (regexPattern { useRegex := true, useWordBoundaryEN := false, showBadge := true }
          "(".toList)).isNone = true ∧
      normalizeText asciiEngine "(".toList = [] ∧
      checkForNgWords asciiEngine (some (normalizeText asciiEngine))
        { useRegex := true, useWordBoundaryEN := false, showBadge := true }
        ["(".toList] "apple".toList = some "(".toList ∧
      importJson valueCodec
        (.obj (.cons "ngWords" (.arr (.cons (.str "!!!".toList) .nil)) .nil)) true
        = .saved { ngWords := some ["!!!".toList], settings := none,
                   tempBypassUntil := none, blockedCount := none } ∧
      (saveNgWords asciiEngine (some (normalizeText asciiEngine)) "!!!".toList).ngWords
        = some [] := by
  refine ⟨by decide, by decide, by decide, by decide, by decide, by decide, by decide⟩

/-! ### The matcher in pattern mode -/

theorem checkLoop_cons (E : Engine) (win : Option (Str → Str)) (settings : Settings)
    (nq w : Str) (rest : List Str) :
    checkLoop E win settings nq (w :: rest) =
      match checkLoop E win settings nq [w] with
      | some m => some m
      | none => checkLoop E win settings nq rest := by
  cases hr : settings.useRegex
  · cases hi : includes nq (normalizeOr E win w) <;> simp [checkLoop, hr, hi]
  · cases hc : E.newRegExp (regexPattern settings w) with
    | none => cases hi : includes nq (normalizeOr E win w) <;> simp [checkLoop, hr, hc, hi]
    | some test => cases ht : test nq <;> simp [checkLoop, hr, hc, ht]

theorem checkLoop_append_of_none (E : Engine) (win : Option (Str → Str))
    (settings : Settings) (nq : Str) (rest : List Str) :
    ∀ pre : List Str, (∀ w ∈ pre, checkLoop E win settings nq [w] = none) →
      checkLoop E win settings nq (pre ++ rest) = checkLoop E win settings nq rest
  | [], _ => rfl
  | w :: pre, h => by
    rw [List.cons_append, checkLoop_cons, h w (List.mem_cons_self _ _)]
    exact checkLoop_append_of_none E win settings nq rest pre
      (fun u hu => h u (List.mem_cons_of_mem _ hu))

/-- An entry whose pattern does not compile is judged by substring containment
of its normalised form, and the loop goes on when it does not match. -/
theorem checkLoop_invalid_pattern (E : Engine) (win : Option (Str → Str))
    (settings : Settings) (hs : settings.useRegex = true) (nq bad : Str)
    (hbad : E.newRegExp (regexPattern settings bad) = none) (rest : List Str) :
    checkLoop E win settings nq (bad :: rest) =
      if includes nq (normalizeOr E win bad) then some bad
      else checkLoop E win settings nq rest := by
  rw [checkLoop]
  simp only [hs, if_true, hbad]

/-- An entry whose pattern compiles and accepts the normalised query ends the loop. -/
theorem checkLoop_valid_match (E : Engine) (win : Option (Str → Str))
    (settings : Settings) (hs : settings.useRegex = true) (nq v : Str) (test : Str → Bool)
    (hv : E.newRegExp (regexPattern settings v) = some test) (ht : test nq = true)
    (rest : List Str) :
    checkLoop E win settings nq (v :: rest) = some v := by
  rw [checkLoop]
  simp only [hs, if_true, hv, ht]

/-- C4: in pattern mode an entry whose pattern fails to compile never aborts
the scan.  With such an entry `bad` at the head of the list the result is
`bad` when its normalised form is contained in the normalised query and the
result of the remaining entries otherwise; and when `bad` and the other
entries before a valid entry `v` do not match, and the pattern of `v`
accepts the normalised query, `v` is returned. -/
theorem checkForNgWords_invalid_pattern_fail_soft (E : Engine) (win : Option (Str → Str))
    (settings : Settings) (hs : settings.useRegex = true) (query : Str) (hq : query ≠ [])
    (bad : Str) (hbad : E.newRegExp (regexPattern settings bad) = none) :
    (∀ rest : List Str,
      checkForNgWords E win settings (bad :: rest) query =
        if includes (normalizeOr E win query) (normalizeOr E win bad) then some bad
        else checkLoop E win settings (normalizeOr E win query) rest) ∧
    (∀ (pre mid post : List Str) (v : Str) (test : Str → Bool),
      (∀ w ∈ pre, checkLoop E win settings (normalizeOr E win query) [w] = none) →
      includes (normalizeOr E win query) (normalizeOr E win bad) = false →
      (∀ w ∈ mid, checkLoop E win settings (normalizeOr E win query) [w] = none) →
      E.newRegExp (regexPattern settings v) = some test →
      test (normalizeOr E win query) = true →
      checkForNgWords E win settings (pre ++ bad :: (mid ++ v :: post)) query = some v) := by
  constructor
  · intro rest
    unfold checkForNgWords
    rw [if_neg (by simp [hq])]
    exact checkLoop_invalid_pattern E win settings hs _ bad hbad rest
  · intro pre mid post v test hpre hno hmid hv ht
    unfold checkForNgWords
    rw [if_neg (by simp [hq])]
    rw [checkLoop_append_of_none E win settings _ _ pre hpre,
      checkLoop_invalid_pattern E win settings hs _ bad hbad, hno]
    simp only [Bool.false_eq_true, if_false]
    rw [checkLoop_append_of_none E win settings _ _ mid hmid]
    exact checkLoop_valid_match E win settings hs _ v test hv ht post

/-- C4 at the documentation's example: the unbalanced `"(foo"` before the
valid `"banana"`, query `"I like banana"`. -/
theorem checkForNgWords_invalid_pattern_fail_soft_witness :
    checkForNgWords asciiEngine (some (normalizeText asciiEngine))
      { useRegex := true, useWordBoundaryEN := false, showBadge := true }
      ["(foo".toList, "banana".toList] "I like banana".toList = some "banana".toList :=
  (checkForNgWords_invalid_pattern_fail_soft asciiEngine (some (normalizeText asciiEngine))
    { useRegex := true, useWordBoundaryEN := false, showBadge := true } rfl
    "I like banana".toList (by decide) "(foo".toList rfl).2 [] [] [] "banana".toList
    (fun q => includes (q.map Char.toLower) ("banana".toList.map Char.toLower))
    (by decide) (by decide) (by decide) rfl (by decide)

theorem char_le_iff (a b : Char) : a ≤ b ↔ a.toNat ≤ b.toNat := by
  show a.val ≤ b.val ↔ _
  rw [uint32_le_iff]; rfl

theorem isAlphanum_iff_ranges (c : Char) : c.isAlphanum = true ↔
    ('a' ≤ c ∧ c ≤ 'z') ∨ ('A' ≤ c ∧ c ≤ 'Z') ∨ ('0' ≤ c ∧ c ≤ '9') := by
  rw [isAlphanum_iff]
  simp only [char_le_iff]
  have h1 : 'a'.toNat = 97 := rfl
  have h2 : 'z'.toNat = 122 := rfl
  have h3 : 'A'.toNat = 65 := rfl
  have h4 : 'Z'.toNat = 90 := rfl
  have h5 : '0'.toNat = 48 := rfl
  have h6 : '9'.toNat = 57 := rfl
  rw [h1, h2, h3, h4, h5, h6]
  tauto

theorem hasAsciiAlnum_iff (ngWord : Str) : hasAsciiAlnum ngWord = true ↔
    ∃ c ∈ ngWord, ('a' ≤ c ∧ c ≤ 'z') ∨ ('A' ≤ c ∧ c ≤ 'Z') ∨ ('0' ≤ c ∧ c ≤ '9') := by
  unfold hasAsciiAlnum
  rw [List.any_eq_true]
  simp only [isAlphanum_iff_ranges]

/-- C5 as stated fails: with `useWordBoundaryEN` on, the entries `"c.t"` and
`"猫cat"` do not consist only of ASCII alphanumerics, yet the pattern compiled
for each is the entry wrapped in `\b...\b`. -/
theorem regexPattern_wraps_mixed_entry_counterexample :
    ("c.t".toList.all Char.isAlphanum = false ∧
      regexPattern { useRegex := true, useWordBoundaryEN := true, showBadge := true }
        "c.t".toList = "\\bc.t\\b".toList) ∧
    ("猫cat".toList.all Char.isAlphanum = false ∧
      regexPattern { useRegex := true, useWordBoundaryEN := true, showBadge := true }
        "猫cat".toList = "\\b猫cat\\b".toList) := by
  decide

/-- C5, amended: with `useWordBoundaryEN` on, the pattern handed to the
regular-expression compiler is the entry wrapped in `\b...\b` exactly when the
entry contains at least one ASCII alphanumeric character, and it is the
unmodified entry exactly when the entry contains none. -/
theorem regexPattern_wraps_iff_contains_ascii_alnum (settings : Settings)
    (h : settings.useWordBoundaryEN = true) (ngWord : Str) :
    (regexPattern settings ngWord = "\\b".toList ++ ngWord ++ "\\b".toList ↔
      ∃ c ∈ ngWord, ('a' ≤ c ∧ c ≤ 'z') ∨ ('A' ≤ c ∧ c ≤ 'Z') ∨ ('0' ≤ c ∧ c ≤ '9')) ∧
    (regexPattern settings ngWord = ngWord ↔
      ¬ ∃ c ∈ ngWord, ('a' ≤ c ∧ c ≤ 'z') ∨ ('A' ≤ c ∧ c ≤ 'Z') ∨ ('0' ≤ c ∧ c ≤ '9')) := by
  have hne : "\\b".toList ++ ngWord ++ "\\b".toList ≠ ngWord := by
    intro heq
    have := congrArg List.length heq
    simp at this
    omega
  rw [← hasAsciiAlnum_iff]
  unfold regexPattern
  cases hw : hasAsciiAlnum ngWord
  · simp only [h, Bool.and_false, Bool.false_eq_true, if_false, not_false_eq_true, iff_true]
    exact ⟨⟨fun heq => hne heq.symm, fun hf => nomatch hf⟩, trivial⟩
  · simp only [h, Bool.and_self, if_true, not_true_eq_false, iff_false, iff_true]
    exact ⟨rfl, hne⟩

/-- The amended C5 at the entry `"c.t"`. -/
theorem regexPattern_wraps_iff_contains_ascii_alnum_witness :
    (regexPattern { useRegex := true, useWordBoundaryEN := true, showBadge := true }
        "c.t".toList = "\\b".toList ++ "c.t".toList ++ "\\b".toList ↔
      ∃ c ∈ "c.t".toList,
        ('a' ≤ c ∧ c ≤ 'z') ∨ ('A' ≤ c ∧ c ≤ 'Z') ∨ ('0' ≤ c ∧ c ≤ '9')) ∧
    (regexPattern { useRegex := true, useWordBoundaryEN := true, showBadge := true }
        "c.t".toList = "c.t".toList ↔
      ¬ ∃ c ∈ "c.t".toList,
        ('a' ≤ c ∧ c ≤ 'z') ∨ ('A' ≤ c ∧ c ≤ 'Z') ∨ ('0' ≤ c ∧ c ≤ '9')) :=
  regexPattern_wraps_iff_contains_ascii_alnum
    { useRegex := true, useWordBoundaryEN := true, showBadge := true } rfl "c.t".toList

/-! ### The configuration store -/

theorem spreadSettings_toPartial (base s : Settings) :
    spreadSettings base s.toPartial = s := rfl

theorem getState_toPartial (s : State) : getState s.toPartial = s := rfl

theorem setState_fst (storage : Storage) (newState : PartialState) :
    (setState storage newState).1 = (setState storage newState).2.toPartial := rfl

/-- C6: `setState` is a merge-write.  The state written is the state
returned; each of `ngWords`, `tempBypassUntil` and `blockedCount` has the
value of the update when the update carries the key and the value read by
`getState` otherwise; the settings are those read by `getState` when the
update carries none, and otherwise each settings key has the value of the
update's settings when present there and keeps its value when absent. -/
theorem setState_merge_write (storage : Storage) (newState : PartialState) :
    getState (setState storage newState).1 = (setState storage newState).2 ∧
    (∀ v, newState.ngWords = some v → (setState storage newState).2.ngWords = v) ∧
    (newState.ngWords = none →
      (setState storage newState).2.ngWords = (getState storage).ngWords) ∧
    (∀ v, newState.tempBypassUntil = some v →
      (setState storage newState).2.tempBypassUntil = v) ∧
    (newState.tempBypassUntil = none →
      (setState storage newState).2.tempBypassUntil = (getState storage).tempBypassUntil) ∧
    (∀ v, newState.blockedCount = some v → (setState storage newState).2.blockedCount = v) ∧
    (newState.blockedCount = none →
      (setState storage newState).2.blockedCount = (getState storage).blockedCount) ∧
    (newState.settings = none →
      (setState storage newState).2.settings = (getState storage).settings) ∧
    (∀ p, newState.settings = some p →
      (∀ b, p.useRegex = some b → (setState storage newState).2.settings.useRegex = b) ∧
      (p.useRegex = none →
        (setState storage newState).2.settings.useRegex
          = (getState storage).settings.useRegex) ∧
      (∀ b, p.useWordBoundaryEN = some b →
        (setState storage newState).2.settings.useWordBoundaryEN = b) ∧
      (p.useWordBoundaryEN = none →
        (setState storage newState).2.settings.useWordBoundaryEN
          = (getState storage).settings.useWordBoundaryEN) ∧
      (∀ b, p.showBadge = some b → (setState storage newState).2.settings.showBadge = b) ∧
      (p.showBadge = none →
        (setState storage newState).2.settings.showBadge
          = (getState storage).settings.showBadge)) := by
  refine ⟨?_, ?_, ?_, ?_, ?_, ?_, ?_, ?_, ?_⟩
  · rw [setState_fst, getState_toPartial]
  · intro v h; simp [setState, h]
  · intro h; simp [setState, h]
  · intro v h; simp [setState, h]
  · intro h; simp [setState, h]
  · intro v h; simp [setState, h]
  · intro h; simp [setState, h]
  · intro h; simp [setState, h]
  · intro p h
    refine ⟨?_, ?_, ?_, ?_, ?_, ?_⟩ <;> intros <;> simp [setState, h, spreadSettings, *]

/-- C6 for the update `{ settings: { showBadge: false } }` of a storage whose
settings hold `useRegex: true` only: the badge flag is taken from the update,
`useRegex` and the word list keep their values. -/
theorem setState_merge_write_witness :
    (setState partialStorage hideBadgeUpdate).2.settings.showBadge = false ∧
    (setState partialStorage hideBadgeUpdate).2.settings.useRegex
      = (getState partialStorage).settings.useRegex ∧
    (setState partialStorage hideBadgeUpdate).2.ngWords = (getState partialStorage).ngWords ∧
    (setState partialStorage hideBadgeUpdate).2 =
      { ngWords := ["banana".toList]
        settings := { useRegex := true, useWordBoundaryEN := false, showBadge := false }
        tempBypassUntil := none
        blockedCount := 3 } :=
  ⟨((setState_merge_write partialStorage hideBadgeUpdate).2.2.2.2.2.2.2.2 _ rfl).2.2.2.2.1
      false rfl,
    ((setState_merge_write partialStorage hideBadgeUpdate).2.2.2.2.2.2.2.2 _ rfl).2.1 rfl,
    (setState_merge_write partialStorage hideBadgeUpdate).2.2.1 rfl,
    by decide⟩

/-! ### The page observer and the bypass window -/

/-- C7 as stated fails.  Writing the deadline 301000 puts the configuration
in bypass at time 2000.  An observer initialised at time 1000, before that
write, still answers an Enter keypress on the query `banana` at time 2000
with a counter increment and a redirect request; and so does an observer
whose initialisation at time 2000 saw the bypass, once the window `load`
event has attached the form listeners. -/
theorem bypass_does_not_suspend_observer_counterexample :
    isBypassed (getState (setState exampleStorage (bypassPayload 301000)).1).tempBypassUntil
        2000 = true ∧
    (run asciiEngine (some (normalizeText asciiEngine)) Observer.start examplePage
        [Event.initializeCalled, Event.stateResponse (some (getState exampleStorage)) 1000,
          Event.keydown "Enter" false]).2.2
      = [Message.getState, Message.incrementBlocked,
          Message.blockAndRedirect "banana".toList "banana".toList "www.google.com".toList] ∧
    (run asciiEngine (some (normalizeText asciiEngine)) Observer.start examplePage
        [Event.initializeCalled,
          Event.stateResponse
            (some (getState (setState exampleStorage (bypassPayload 301000)).1)) 2000,
          Event.load, Event.keydown "Enter" false]).2.2
      = [Message.getState, Message.incrementBlocked,
          Message.blockAndRedirect "banana".toList "banana".toList "www.google.com".toList] := by
  decide

/-- While neither monitoring flag is set, an event other than `load` and the
`GET_STATE` callback changes at most `isInitialized` and sends at most
`GET_STATE`. -/
theorem step_without_listeners (E : Engine) (win : Option (Str → Str)) (o : Observer)
    (page : Page) (ev : Event) (hf : o.formMonitoring = false)
    (hu : o.unifiedMonitoring = false) (hi : o.isInitialized = true)
    (hev : ev.isLoadOrResponse = false) :
    (step E win o page ev).1 = o ∧ (step E win o page ev).2.2 = [] := by
  cases ev with
  | initializeCalled => simp [step, hi]
  | stateResponse r n => simp [Event.isLoadOrResponse] at hev
  | load => simp [Event.isLoadOrResponse] at hev
  | keydown key isComposing =>
    cases hp : page.activeElement <;> simp [step, hf, hp]
  | submit form => simp [step, hf]
  | historyChange => simp [step, hu]
  | mutation needsSetup => simp [step, hu]
  | interval => simp [step, hu]
  | setPage page2 => simp [step]

theorem run_without_listeners (E : Engine) (win : Option (Str → Str)) (o : Observer)
    (hf : o.formMonitoring = false) (hu : o.unifiedMonitoring = false)
    (hi : o.isInitialized = true) :
    ∀ (evs : List Event) (page : Page), (∀ ev ∈ evs, ev.isLoadOrResponse = false) →
      (run E win o page evs).1 = o ∧ (run E win o page evs).2.2 = []
  | [], _, _ => ⟨rfl, rfl⟩
  | ev :: evs, page, h => by
    have h1 := step_without_listeners E win o page ev hf hu hi (h ev (List.mem_cons_self _ _))
    have h2 := run_without_listeners E win o hf hu hi evs (step E win o page ev).2.1
      (fun e he => h e (List.mem_cons_of_mem _ he))
    simp only [run]
    rw [h1.1, h1.2]
    exact ⟨h2.1, by simpa using h2.2⟩

/-- C7, amended: the bypass is consulted once, when the observer handles the
`GET_STATE` response of its initialisation.  If at that time
`tempBypassUntil` is present and later than the current time, the observer
installs no observation strategy and issues no block or redirect, neither
then nor at any later keydown, submit, history, mutation or interval event
(the window `load` event aside): `GET_STATE` is the only message it sends. -/
theorem bypassed_initialization_issues_no_block (E : Engine) (win : Option (Str → Str))
    (page : Page) (response : State) (now : Nat) (evs : List Event)
    (hb : isBypassed response.tempBypassUntil now = true)
    (hevs : ∀ ev ∈ evs, ev.isLoadOrResponse = false) :
    (run E win Observer.start page
        (Event.initializeCalled :: Event.stateResponse (some response) now :: evs)).2.2
      = [Message.getState] ∧
    (run E win Observer.start page
        (Event.initializeCalled :: Event.stateResponse (some response) now :: evs)).1.formMonitoring
      = false ∧
    (run E win Observer.start page
        (Event.initializeCalled :: Event.stateResponse (some response) now :: evs)).1.unifiedMonitoring
      = false := by
  have h := run_without_listeners E win
    { currentNgWords := response.ngWords, currentSettings := response.settings,
      isInitialized := true, lastCheckedQuery := [], formMonitoring := false,
      unifiedMonitoring := false } rfl rfl rfl evs page hevs
  have hrun : run E win Observer.start page
      (Event.initializeCalled :: Event.stateResponse (some response) now :: evs)
      = ((run E win
            { currentNgWords := response.ngWords, currentSettings := response.settings,
              isInitialized := true, lastCheckedQuery := [], formMonitoring := false,
              unifiedMonitoring := false } page evs).1,
         (run E win
            { currentNgWords := response.ngWords, currentSettings := response.settings,
              isInitialized := true, lastCheckedQuery := [], formMonitoring := false,
              unifiedMonitoring := false } page evs).2.1,
         Message.getState ::
           (run E win
              { currentNgWords := response.ngWords, currentSettings := response.settings,
                isInitialized := true, lastCheckedQuery := [], formMonitoring := false,
                unifiedMonitoring := false } page evs).2.2) := by
    simp [run, step, onStateResponse, hb, Observer.start]
  rw [hrun]
  simp [h.1, h.2]

/-- The amended C7 for an observer whose initialisation at time 2000 sees the
deadline 301000, followed by an Enter keypress, a form submission, a history
change, a mutation, an interval tick and a change of the page. -/
theorem bypassed_initialization_issues_no_block_witness :
    (run asciiEngine (some (normalizeText asciiEngine)) Observer.start examplePage
        (Event.initializeCalled ::
          Event.stateResponse
            (some (getState (setState exampleStorage (bypassPayload 301000)).1)) 2000 ::
          [Event.keydown "Enter" false,
            Event.submit { formData := [("q", "banana".toList)], inputs := [] },
            Event.historyChange, Event.mutation true, Event.interval,
            Event.setPage examplePage, Event.keydown "Enter" false])).2.2
      = [Message.getState] ∧
    (run asciiEngine (some (normalizeText asciiEngine)) Observer.start examplePage
        (Event.initializeCalled ::
          Event.stateResponse
            (some (getState (setState exampleStorage (bypassPayload 301000)).1)) 2000 ::
          [Event.keydown "Enter" false,
            Event.submit { formData := [("q", "banana".toList)], inputs := [] },
            Event.historyChange, Event.mutation true, Event.interval,
            Event.setPage examplePage, Event.keydown "Enter" false])).1.formMonitoring
      = false ∧
    (run asciiEngine (some (normalizeText asciiEngine)) Observer.start examplePage
        (Event.initializeCalled ::
          Event.stateResponse
            (some (getState (setState exampleStorage (bypassPayload 301000)).1)) 2000 ::
          [Event.keydown "Enter" false,
            Event.submit { formData := [("q", "banana".toList)], inputs := [] },
            Event.historyChange, Event.mutation true, Event.interval,
            Event.setPage examplePage, Event.keydown "Enter" false])).1.unifiedMonitoring
      = false :=
  bypassed_initialization_issues_no_block asciiEngine (some (normalizeText asciiEngine))
    examplePage (getState (setState exampleStorage (bypassPayload 301000)).1) 2000 _
    (by decide) (by decide)

/-! ### De-duplication -/

/-- C8, the code at the failing inputs: the same matching text, observed
twice in succession, is blocked twice.  On a results page for `apple` with the
word list `["banana"]`, Enter on `banana` is blocked; the field holds `banana`
again when the 2 s interval fires, whose `checkCurrentUrl` first replaces
`lastCheckedQuery` by `apple`, so the focused-field check blocks `banana` a
second time.  And on a page whose URL carries `banana ` with its trailing
space, the URL check records the text untrimmed, so Enter on the same text in
the search box, which the keydown listener trims, is blocked again.  Each
trace sends two `INCREMENT_BLOCKED` and two `BLOCK_AND_REDIRECT` requests. -/
theorem same_query_observed_twice_blocks_twice :
    (run asciiEngine (some (normalizeText asciiEngine)) Observer.start appleResultsPage
        [Event.initializeCalled, Event.stateResponse (some (getState exampleStorage)) 0,
         Event.keydown "Enter" false, Event.setPage appleResultsPage, Event.interval]).2.2
      = [Message.getState,
         Message.incrementBlocked,
         Message.blockAndRedirect "banana".toList "banana".toList "www.google.com".toList,
         Message.incrementBlocked,
         Message.blockAndRedirect "banana".toList "banana".toList "www.google.com".toList] ∧
    (run asciiEngine (some (normalizeText asciiEngine)) Observer.start paddedQueryPage
        [Event.initializeCalled, Event.stateResponse (some (getState exampleStorage)) 0,
         Event.setPage paddedQueryFocusedPage, Event.keydown "Enter" false]).2.2
      = [Message.getState,
         Message.incrementBlocked,
         Message.blockAndRedirect "banana ".toList "banana".toList "www.google.com".toList,
         Message.incrementBlocked,
         Message.blockAndRedirect "banana".toList "banana".toList "www.google.com".toList] := by
  constructor <;> decide

/-! ### De-duplication of word lists -/

theorem mem_firstOccurrences {x : Str} : ∀ {l : List Str}, x ∈ firstOccurrences l ↔ x ∈ l
  | [] => Iff.rfl
  | w :: ws => by
    simp only [firstOccurrences, List.mem_cons, List.mem_filter, decide_eq_true_eq,
      mem_firstOccurrences (l := ws)]
    by_cases h : x = w <;> simp [h]

theorem nodup_firstOccurrences : ∀ l : List Str, (firstOccurrences l).Nodup
  | [] => List.nodup_nil
  | w :: ws => by
    simp only [firstOccurrences, List.nodup_cons, List.mem_filter, decide_eq_true_eq,
      ne_eq, not_true_eq_false, and_false, not_false_eq_true, true_and]
    exact (nodup_firstOccurrences ws).filter _

theorem firstOccurrences_sublist : ∀ l : List Str, List.Sublist (firstOccurrences l) l
  | [] => List.Sublist.refl _
  | w :: ws => by
    simp only [firstOccurrences]
    exact ((List.filter_sublist _).trans (firstOccurrences_sublist ws)).cons₂ w

theorem firstOccurrences_of_nodup : ∀ {l : List Str}, l.Nodup → firstOccurrences l = l
  | [], _ => rfl
  | w :: ws, h => by
    rw [List.nodup_cons] at h
    simp only [firstOccurrences, firstOccurrences_of_nodup h.2, List.cons.injEq, true_and]
    refine List.filter_eq_self.mpr (fun v hv => ?_)
    simp only [decide_eq_true_eq]
    rintro rfl
    exact h.1 hv

theorem indexOf_append_cons_beq_length (w : Str) (ws : List Str) :
    ∀ pre : List Str, ((pre ++ w :: ws).indexOf w == pre.length) = decide (w ∉ pre)
  | [] => by simp [List.indexOf_cons]
  | a :: pre => by
    have ih := indexOf_append_cons_beq_length w ws pre
    rw [List.cons_append, List.indexOf_cons]
    by_cases h : a = w
    · subst h; simp
    · have h2 : ¬ w = a := fun hc => h hc.symm
      have hb : (a == w) = false := by simpa using h
      simp only [hb, cond_false, List.length_cons, List.mem_cons, h2, false_or]
      rw [← ih]
      simp

theorem filterFirstIndex_aux : ∀ (suf pre : List Str),
    ((List.enumFrom pre.length suf).filter
        (fun p => (pre ++ suf).indexOf p.2 == p.1)).map Prod.snd
      = (firstOccurrences suf).filter (fun w => decide (w ∉ pre))
  | [], _ => rfl
  | w :: ws, pre => by
    have ih := filterFirstIndex_aux ws (pre ++ [w])
    simp only [List.length_append, List.length_singleton, List.append_assoc,
      List.singleton_append] at ih
    simp only [List.enumFrom_cons, List.filter_cons, firstOccurrences]
    have htail : ((firstOccurrences ws).filter (fun v => decide (v ≠ w))).filter
        (fun v => decide (v ∉ pre))
        = (firstOccurrences ws).filter (fun v => decide (v ∉ pre ++ [w])) := by
      rw [List.filter_filter]
      refine List.filter_congr (fun v _ => ?_)
      by_cases h1 : v ∈ pre <;> by_cases h2 : v = w <;> simp [h1, h2]
    have hidx := indexOf_append_cons_beq_length w ws pre
    by_cases hw : w ∈ pre
    · simp only [hw, not_true_eq_false, decide_False] at hidx
      simp only [hidx, Bool.false_eq_true, if_false, hw, not_true_eq_false, decide_False]
      rw [ih, htail]
    · simp only [hw, not_false_eq_true, decide_True] at hidx
      simp only [hidx, if_true, hw, not_false_eq_true, decide_True, List.map_cons]
      rw [ih, htail]

/-- The index filter of the code keeps exactly the first occurrences. -/
theorem filterFirstIndex_eq_firstOccurrences (arr : List Str) :
    filterFirstIndex arr = firstOccurrences arr := by
  have h := filterFirstIndex_aux arr []
  simp only [List.length_nil, List.nil_append, List.not_mem_nil, not_false_eq_true,
    decide_True, List.filter_true] at h
  exact h

theorem filterFirstIndex_of_nodup {l : List Str} (h : l.Nodup) : filterFirstIndex l = l := by
  rw [filterFirstIndex_eq_firstOccurrences, firstOccurrences_of_nodup h]

/-- A list built by trimming, dropping the empty strings and keeping first
occurrences is tidy. -/
theorem tidy_filterFirstIndex {α : Type} (f : α → Str) (l : List α) :
    Tidy (filterFirstIndex
      ((l.map (fun x => trim (f x))).filter (fun word => decide (word.length > 0)))) := by
  rw [filterFirstIndex_eq_firstOccurrences]
  refine ⟨fun w hw => ?_, nodup_firstOccurrences _⟩
  rw [mem_firstOccurrences, List.mem_filter, List.mem_map] at hw
  obtain ⟨⟨x, _, rfl⟩, hlen⟩ := hw
  refine ⟨trim_trim _, ?_⟩
  intro h
  rw [h] at hlen
  simp at hlen

/-! ### Saving the word list -/

theorem isWhiteSpace_of_trim_eq_nil {s : Str} (h : trim s = []) :
    ∀ c ∈ s, isWhiteSpace c = true := by
  unfold trim at h
  rw [List.rdropWhile_eq_nil_iff] at h
  have hd : s.dropWhile isWhiteSpace = [] := by
    cases hs : s.dropWhile isWhiteSpace with
    | nil => rfl
    | cons a l =>
      have h1 := List.head?_dropWhile_not isWhiteSpace s
      rw [hs] at h1 h
      have h2 := h a (List.mem_cons_self _ _)
      simp [h2] at h1
  exact List.dropWhile_eq_nil_iff.mp hd

theorem mem_of_mem_splitLines {c : Char} :
    ∀ {s : Str} {line : Str}, line ∈ splitLines s → c ∈ line → c ∈ s
  | [], line, hl, hc => by
    simp only [splitLines, List.mem_singleton] at hl
    rw [hl] at hc
    exact hc
  | d :: ds, line, hl, hc => by
    unfold splitLines at hl
    split at hl
    · rcases List.mem_cons.mp hl with h | h
      · rw [h] at hc; exact absurd hc (List.not_mem_nil _)
      · exact List.mem_cons_of_mem _ (mem_of_mem_splitLines h hc)
    · split at hl
      · simp only [List.mem_singleton] at hl
        rw [hl] at hc
        simp only [List.mem_singleton] at hc
        exact hc ▸ List.mem_cons_self _ _
      · rename_i first others heq
        rcases List.mem_cons.mp hl with h | h
        · rw [h] at hc
          rcases List.mem_cons.mp hc with h2 | h2
          · exact h2 ▸ List.mem_cons_self _ _
          · exact List.mem_cons_of_mem _
              (mem_of_mem_splitLines (heq ▸ List.mem_cons_self _ _) h2)
        · exact List.mem_cons_of_mem _
            (mem_of_mem_splitLines (heq ▸ List.mem_cons_of_mem _ h) hc)

/-- A string of white space normalises to the empty string. -/
theorem normalizeText_of_whiteSpace {E : Engine} (hE : E.Lawful) {s : Str}
    (h : ∀ c ∈ s, isWhiteSpace c = true) : normalizeText E s = [] := by
  rw [normalizeText_eq_collapse]
  exact collapse_eq_nil_of_symbols _ (hE.whiteSpace_stays s h)

/-- What `saveNgWords` writes, in the terms of the documentation. -/
theorem saveNgWords_ngWords {E : Engine} (hE : E.Lawful) (text : Str) :
    saveNgWords E (some (normalizeText E)) text =
      { ngWords := some (firstOccurrences
          (((splitLines text).map (normalizeText E)).filter (fun w => decide (w ≠ []))))
        settings := none, tempBypassUntil := none, blockedCount := none } := by
  have hfilter : ∀ l : List Str,
      l.filter (fun word => decide (word.length > 0)) = l.filter (fun w => decide (w ≠ [])) :=
    fun l => List.filter_congr (fun w _ => by cases w <;> simp)
  unfold saveNgWords
  by_cases hb : trim text = []
  · rw [if_pos hb]
    have hall := isWhiteSpace_of_trim_eq_nil hb
    have hnil : ((splitLines text).map (normalizeText E)).filter (fun w => decide (w ≠ []))
        = [] := by
      rw [List.filter_eq_nil_iff]
      intro w hw
      obtain ⟨line, hline, rfl⟩ := List.mem_map.mp hw
      rw [normalizeText_of_whiteSpace hE
        (fun c hc => hall c (mem_of_mem_splitLines hline hc))]
      simp
    rw [hnil]
    rfl
  · rw [if_neg hb]
    simp only [filterFirstIndex_eq_firstOccurrences, hfilter]

/-- C10: `saveNgWords` normalises and de-duplicates.  The word list written
is the list of `normalizeText(line)` over the lines of the text, without the
empty results and with each value kept at its first occurrence only; it has
no duplicate and no empty entry, it keeps the order of the lines, and each
of its entries is a fixed point of `normalizeText`. -/
theorem saveNgWords_normalizes_and_deduplicates (E : Engine) (hE : E.Lawful) (text : Str) :
    ∃ words : List Str,
      saveNgWords E (some (normalizeText E)) text =
        { ngWords := some words, settings := none, tempBypassUntil := none,
          blockedCount := none } ∧
      words = firstOccurrences
        (((splitLines text).map (normalizeText E)).filter (fun w => decide (w ≠ []))) ∧
      words.Nodup ∧ [] ∉ words ∧
      List.Sublist words ((splitLines text).map (normalizeText E)) ∧
      ∀ w ∈ words, normalizeText E w = w := by
  refine ⟨_, saveNgWords_ngWords hE text, rfl, nodup_firstOccurrences _, ?_, ?_, ?_⟩
  · rw [mem_firstOccurrences, List.mem_filter]
    simp
  · exact (firstOccurrences_sublist _).trans (List.filter_sublist _)
  · intro w hw
    rw [mem_firstOccurrences, List.mem_filter, List.mem_map] at hw
    obtain ⟨⟨line, _, rfl⟩, _⟩ := hw
    exact normalizeText_fixed hE line

/-- C10 at the ASCII engine for a text of five lines with a repeated word, a
word in capitals, a line of symbols and an empty line. -/
theorem saveNgWords_normalizes_and_deduplicates_witness :
    ∃ words : List Str,
      saveNgWords asciiEngine (some (normalizeText asciiEngine))
          "Banana\napple!!\n---\n\nBANANA".toList =
        { ngWords := some words, settings := none, tempBypassUntil := none,
          blockedCount := none } ∧
      words = firstOccurrences
        (((splitLines "Banana\napple!!\n---\n\nBANANA".toList).map
          (normalizeText asciiEngine)).filter (fun w => decide (w ≠ []))) ∧
      words.Nodup ∧ [] ∉ words ∧
      List.Sublist words
        ((splitLines "Banana\napple!!\n---\n\nBANANA".toList).map
          (normalizeText asciiEngine)) ∧
      ∀ w ∈ words, normalizeText asciiEngine w = w :=
  saveNgWords_normalizes_and_deduplicates asciiEngine asciiEngine_lawful _

/-! ### Export and import -/

theorem JsonItems.toList_ofList : ∀ l : List Json, (JsonItems.ofList l).toList = l
  | [] => rfl
  | x :: rest => by
    simp only [JsonItems.ofList, JsonItems.toList, JsonItems.toList_ofList rest]

/-- The word list written by `saveNgWords` is tidy. -/
theorem tidy_of_saveNgWords (E : Engine) (text : Str) (words : List Str)
    (h : (saveNgWords E (some (normalizeText E)) text).ngWords = some words) :
    Tidy words := by
  unfold saveNgWords at h
  split at h
  · simp only [Option.some.injEq] at h
    subst h
    exact ⟨fun w hw => absurd hw (List.not_mem_nil _), List.nodup_nil⟩
  · simp only [Option.some.injEq] at h
    subst h
    exact tidy_filterFirstIndex
      (fun line => replaceSymbolRuns E.isLetterOrNumber (E.toLowerCase (E.nfkc line))) _

/-- The word list written by `saveNgWords` without `window.normalizeText` is tidy. -/
theorem tidy_of_saveNgWords_fallback (E : Engine) (hE : E.Lawful) (text : Str)
    (words : List Str) (h : (saveNgWords E none text).ngWords = some words) :
    Tidy words := by
  unfold saveNgWords at h
  split at h
  · simp only [Option.some.injEq] at h
    subst h
    exact ⟨fun w hw => absurd hw (List.not_mem_nil _), List.nodup_nil⟩
  · simp only [Option.some.injEq] at h
    subst h
    have hmap : (splitLines text).map (fun line => E.toLowerCase (trim line))
        = (splitLines text).map (fun line => trim (E.toLowerCase (trim line))) :=
      List.map_congr_left (fun line _ => (hE.toLowerCase_trim line).symm)
    rw [hmap]
    exact tidy_filterFirstIndex (fun line => E.toLowerCase (trim line)) _

/-- The word list built by `importJson` is tidy. -/
theorem tidy_of_importedNgWords (importedData : Json) (words : List Str)
    (hw : importedNgWords importedData = some words) : Tidy words := by
  unfold importedNgWords at hw
  split at hw
  · simp only [Option.some.injEq] at hw
    subst hw
    exact tidy_filterFirstIndex (fun word => Json.toJsString word) _
  · exact absurd hw (by simp)

theorem tidy_of_importJson {Text : Type} (codec : JsonCodec Text) (fileText : Text)
    (newState : PartialState) (words : List Str)
    (h : importJson codec fileText true = .saved newState)
    (hw : newState.ngWords = some words) : Tidy words := by
  unfold importJson at h
  cases hp : codec.parse fileText with
  | none => simp [hp] at h
  | some importedData =>
    simp only [hp, Bool.not_true, Bool.false_eq_true, if_false] at h
    have key : ∀ d : Json, ImportResult.saved
        { ngWords := importedNgWords d, settings := importedSettings d,
          tempBypassUntil := none, blockedCount := none } = .saved newState → Tidy words := by
      intro d hd
      simp only [ImportResult.saved.injEq] at hd
      subst hd
      exact tidy_of_importedNgWords d words hw
    cases importedData with
    | null => simp at h
    | bool b => exact key _ h
    | num t => exact key _ h
    | str t => exact key _ h
    | arr items => exact key _ h
    | obj props => exact key _ h

/-- A tidy word list survives the word-list step of the import unchanged. -/
theorem import_words_of_tidy {words : List Str} (h : Tidy words) :
    filterFirstIndex
      ((((JsonItems.ofList (words.map Json.str)).toList.map
        (fun word => trim word.toJsString))).filter (fun word => decide (word.length > 0)))
      = words := by
  rw [JsonItems.toList_ofList, List.map_map]
  have hmap : words.map ((fun word => trim word.toJsString) ∘ Json.str) = words := by
    conv_rhs => rw [← List.map_id words]
    exact List.map_congr_left (fun w hw => (h.1 w hw).1)
  rw [hmap, List.filter_eq_self.mpr, filterFirstIndex_of_nodup h.2]
  intro w hw
  have := (h.1 w hw).2
  cases w with
  | nil => exact absurd rfl this
  | cons a l => simp

/-- C9: export/import round trip.  For every configuration whose word list
was written by `saveNgWords` (with `window.normalizeText`, or without it on an
engine that satisfies `Engine.Lawful`) or by `importJson`, and every codec that parses
the exported text back to the exported value, `importJson` on the text that
`exportJson` produces builds the partial state with the same word list and
the same three settings, and writing that partial state to a store holding
the configuration returns, and stores, the configuration unchanged. -/
theorem export_import_round_trip {Text : Type} (codec : JsonCodec Text) (config : State)
    (hcodec : codec.parse (codec.stringify (exportData config)) = some (exportData config))
    (hwords :
      (∃ (E : Engine) (text : Str),
        (saveNgWords E (some (normalizeText E)) text).ngWords = some config.ngWords) ∨
      (∃ (E : Engine) (text : Str), E.Lawful ∧
        (saveNgWords E none text).ngWords = some config.ngWords) ∨
      (∃ (Text2 : Type) (codec2 : JsonCodec Text2) (fileText : Text2)
          (newState : PartialState),
        importJson codec2 fileText true = .saved newState ∧
          newState.ngWords = some config.ngWords)) :
    ∃ text : Text, exportJson codec (some config) = some text ∧
      importJson codec text true =
        .saved { ngWords := some config.ngWords, settings := some config.settings.toPartial,
                 tempBypassUntil := none, blockedCount := none } ∧
      ∀ storage : Storage, getState storage = config →
        (setState storage
            { ngWords := some config.ngWords, settings := some config.settings.toPartial,
              tempBypassUntil := none, blockedCount := none }).2 = config ∧
        getState (setState storage
            { ngWords := some config.ngWords, settings := some config.settings.toPartial,
              tempBypassUntil := none, blockedCount := none }).1 = config := by
  have htidy : Tidy config.ngWords := by
    rcases hwords with ⟨E, text, h⟩ | ⟨E, text, hE, h⟩ |
      ⟨Text2, codec2, fileText, newState, h, hw⟩
    · exact tidy_of_saveNgWords E text _ h
    · exact tidy_of_saveNgWords_fallback E hE text _ h
    · exact tidy_of_importJson codec2 fileText newState _ h hw
  refine ⟨codec.stringify (exportData config), rfl, ?_, ?_⟩
  · have hw : importedNgWords (exportData config) = some config.ngWords := by
      show some _ = some _
      rw [import_words_of_tidy htidy]
    have hs : importedSettings (exportData config) = some config.settings.toPartial := by
      show some _ = some _
      simp only [Settings.toPartial, Option.some.injEq, PartialSettings.mk.injEq]
      refine ⟨rfl, rfl, ?_⟩
      cases config.settings.showBadge <;> rfl
    unfold importJson
    rw [hcodec]
    simp only [Bool.not_true, Bool.false_eq_true, if_false]
    show ImportResult.saved _ = _
    rw [hw, hs]
  · intro storage hs
    have hmerged : (setState storage
        { ngWords := some config.ngWords, settings := some config.settings.toPartial,
          tempBypassUntil := none, blockedCount := none }).2 = config := by
      simp only [setState, hs, Option.getD_some, Option.getD_none, spreadSettings_toPartial]
    exact ⟨hmerged, by rw [setState_fst, getState_toPartial, hmerged]⟩

/-- C9 for the configuration `exampleConfig`, whose word list `saveNgWords`
writes for the text `Banana`, `apple!!`, `---`, an empty line, `BANANA`. -/
theorem export_import_round_trip_witness :
    ∃ text : Json, exportJson valueCodec (some exampleConfig) = some text ∧
      importJson valueCodec text true =
        .saved { ngWords := some exampleConfig.ngWords,
                 settings := some exampleConfig.settings.toPartial,
                 tempBypassUntil := none, blockedCount := none } ∧
      ∀ storage : Storage, getState storage = exampleConfig →
        (setState storage
            { ngWords := some exampleConfig.ngWords,
              settings := some exampleConfig.settings.toPartial,
              tempBypassUntil := none, blockedCount := none }).2 = exampleConfig ∧
        getState (setState storage
            { ngWords := some exampleConfig.ngWords,
              settings := some exampleConfig.settings.toPartial,
              tempBypassUntil := none, blockedCount := none }).1 = exampleConfig :=
  export_import_round_trip valueCodec exampleConfig rfl
    (Or.inl ⟨asciiEngine, "Banana\napple!!\n---\n\nBANANA".toList, by decide⟩)

/-! ### Reading the configuration -/

/-- C12: `getState` always returns a fully populated settings object.  For
every content of the storage, each of the three settings keys has the stored
value when the stored settings object holds the key, and its default
(`false`, `false`, `true`) when the key, or the whole settings object, is
not stored; and `ngWords`, `tempBypassUntil` and `blockedCount` have their
stored value when stored and `[]`, `null` and `0` otherwise. -/
theorem getState_fully_populated (storage : Storage) :
    (∃ a b c : Bool, (getState storage).settings.toPartial
      = { useRegex := some a, useWordBoundaryEN := some b, showBadge := some c }) ∧
    (storage.settings = none →
      (getState storage).settings
        = { useRegex := false, useWordBoundaryEN := false, showBadge := true }) ∧
    (∀ p, storage.settings = some p →
      (∀ b, p.useRegex = some b → (getState storage).settings.useRegex = b) ∧
      (p.useRegex = none → (getState storage).settings.useRegex = false) ∧
      (∀ b, p.useWordBoundaryEN = some b →
        (getState storage).settings.useWordBoundaryEN = b) ∧
      (p.useWordBoundaryEN = none → (getState storage).settings.useWordBoundaryEN = false) ∧
      (∀ b, p.showBadge = some b → (getState storage).settings.showBadge = b) ∧
      (p.showBadge = none → (getState storage).settings.showBadge = true)) ∧
    (∀ v, storage.ngWords = some v → (getState storage).ngWords = v) ∧
    (storage.ngWords = none → (getState storage).ngWords = []) ∧
    (∀ v, storage.tempBypassUntil = some v → (getState storage).tempBypassUntil = v) ∧
    (storage.tempBypassUntil = none → (getState storage).tempBypassUntil = none) ∧
    (∀ v, storage.blockedCount = some v → (getState storage).blockedCount = v) ∧
    (storage.blockedCount = none → (getState storage).blockedCount = 0) := by
  refine ⟨⟨_, _, _, rfl⟩, ?_, ?_, ?_, ?_, ?_, ?_, ?_, ?_⟩
  · intro h; simp [getState, h, spreadSettings, defaultState, Settings.toPartial]
  · intro p h
    refine ⟨?_, ?_, ?_, ?_, ?_, ?_⟩ <;> intros <;>
      simp [getState, h, spreadSettings, defaultState, *]
  · intro v h; simp [getState, h]
  · intro h; simp [getState, h, defaultState]
  · intro v h; simp [getState, h]
  · intro h; simp [getState, h, defaultState]
  · intro v h; simp [getState, h]
  · intro h; simp [getState, h, defaultState]

/-- C12 for a storage whose settings object holds `useRegex: true` only and
that stores no bypass deadline: the two missing settings keys and the
deadline have their defaults. -/
theorem getState_fully_populated_witness :
    getState partialStorage =
      { ngWords := ["banana".toList]
        settings := { useRegex := true, useWordBoundaryEN := false, showBadge := true }
        tempBypassUntil := none
        blockedCount := 3 } ∧
    (getState partialStorage).settings.useWordBoundaryEN = false ∧
    (getState partialStorage).tempBypassUntil = none :=
  ⟨by decide,
    ((getState_fully_populated partialStorage).2.2.1 _ rfl).2.2.2.1 rfl,
    (getState_fully_populated partialStorage).2.2.2.2.2.2.1 rfl⟩

/-! ### Expiry of the bypass window -/

/-- C13 as stated fails: a stored deadline of `0` is present and the time
`5` is not before it, yet `checkBypassStatus` writes nothing and the deadline
stays stored, because the guard `tempBypassUntil && ...` takes `0` for no
deadline. -/
theorem checkBypassStatus_zero_deadline_counterexample :
    (getState
        { ngWords := none, settings := none, tempBypassUntil := some (some 0),
          blockedCount := none }).tempBypassUntil = some 0 ∧
    0 ≤ 5 ∧
    checkBypassStatus
        { ngWords := none, settings := none, tempBypassUntil := some (some 0),
          blockedCount := none } 5
      = { ngWords := none, settings := none, tempBypassUntil := some (some 0),
          blockedCount := none } ∧
    (getState (checkBypassStatus
        { ngWords := none, settings := none, tempBypassUntil := some (some 0),
          blockedCount := none } 5)).tempBypassUntil ≠ none := by
  decide

/-- The state read after a write that only resets the deadline. -/
theorem getState_clear_deadline (storage : Storage) :
    getState (setState storage
        { ngWords := none, settings := none, tempBypassUntil := some none,
          blockedCount := none }).1
      = { getState storage with tempBypassUntil := none } := by
  rw [setState_fst, getState_toPartial]
  rfl

/-- C13, amended: for every configuration and every time `now`,
`checkBypassStatus` writes `tempBypassUntil = null` exactly when the stored
deadline is present, not `0`, and `now` is at or past it, and otherwise it
writes nothing; in both cases `ngWords`, `settings` and `blockedCount` read
as before; and a deadline at or before the current time never counts as
bypassed. -/
theorem checkBypassStatus_clears_expired_deadline (storage : Storage) (now : Nat) :
    ((∃ t, (getState storage).tempBypassUntil = some t ∧ t ≠ 0 ∧ t ≤ now) →
      checkBypassStatus storage now =
        (setState storage
          { ngWords := none, settings := none, tempBypassUntil := some none,
            blockedCount := none }).1 ∧
      (getState (checkBypassStatus storage now)).tempBypassUntil = none) ∧
    ((¬ ∃ t, (getState storage).tempBypassUntil = some t ∧ t ≠ 0 ∧ t ≤ now) →
      checkBypassStatus storage now = storage) ∧
    (getState (checkBypassStatus storage now)).ngWords = (getState storage).ngWords ∧
    (getState (checkBypassStatus storage now)).settings = (getState storage).settings ∧
    (getState (checkBypassStatus storage now)).blockedCount
      = (getState storage).blockedCount ∧
    (∀ t, t ≤ now → isBypassed (some t) now = false) := by
  have hexp : ∀ t, (getState storage).tempBypassUntil = some t → t ≠ 0 → t ≤ now →
      checkBypassStatus storage now =
        (setState storage
          { ngWords := none, settings := none, tempBypassUntil := some none,
            blockedCount := none }).1 := by
    intro t ht h0 hle
    unfold checkBypassStatus
    simp [ht, h0, hle]
  have hkeep : (¬ ∃ t, (getState storage).tempBypassUntil = some t ∧ t ≠ 0 ∧ t ≤ now) →
      checkBypassStatus storage now = storage := by
    intro h
    unfold checkBypassStatus
    cases ht : (getState storage).tempBypassUntil with
    | none => rfl
    | some t =>
      have : ¬ (t ≠ 0 ∧ t ≤ now) := fun hc => h ⟨t, ht, hc.1, hc.2⟩
      simp only [bne_iff_ne, ne_eq, ge_iff_le, Bool.and_eq_true, decide_eq_true_eq]
      rw [if_neg this]
  have hframe : (getState (checkBypassStatus storage now)).ngWords
        = (getState storage).ngWords ∧
      (getState (checkBypassStatus storage now)).settings = (getState storage).settings ∧
      (getState (checkBypassStatus storage now)).blockedCount
        = (getState storage).blockedCount := by
    by_cases h : ∃ t, (getState storage).tempBypassUntil = some t ∧ t ≠ 0 ∧ t ≤ now
    · obtain ⟨t, ht, h0, hle⟩ := h
      rw [hexp t ht h0 hle, getState_clear_deadline]
      exact ⟨rfl, rfl, rfl⟩
    · rw [hkeep h]
      exact ⟨rfl, rfl, rfl⟩
  refine ⟨?_, hkeep, hframe.1, hframe.2.1, hframe.2.2, ?_⟩
  · rintro ⟨t, ht, h0, hle⟩
    refine ⟨hexp t ht h0 hle, ?_⟩
    rw [hexp t ht h0 hle, getState_clear_deadline]
  · intro t hle
    unfold isBypassed
    simp only [Bool.and_eq_false_imp, decide_eq_false_iff_not, not_lt]
    exact fun _ => hle

/-- The amended C13 on a storage where the deadline 301000 was written: at
time 400000 the deadline is reset and the word list is still read, at time
2000 nothing is written. -/
theorem checkBypassStatus_clears_expired_deadline_witness :
    (getState (checkBypassStatus
        (setState exampleStorage (bypassPayload 301000)).1 400000)).tempBypassUntil = none ∧
    (getState (checkBypassStatus
        (setState exampleStorage (bypassPayload 301000)).1 400000)).ngWords
      = ["banana".toList] ∧
    checkBypassStatus (setState exampleStorage (bypassPayload 301000)).1 2000
      = (setState exampleStorage (bypassPayload 301000)).1 :=
  ⟨((checkBypassStatus_clears_expired_deadline
        (setState exampleStorage (bypassPayload 301000)).1 400000).1
      ⟨301000, by decide, by decide, by decide⟩).2,
    by decide,
    (checkBypassStatus_clears_expired_deadline
        (setState exampleStorage (bypassPayload 301000)).1 2000).2.1 (by decide)⟩

/-! ### Validation of imported data -/

/-- The settings built by the import depend on the three known keys only. -/
theorem importedSettings_congr (d d2 : Json) (props props2 : JsonProps)
    (hd : d.prop "settings" = some (.obj props))
    (hd2 : d2.prop "settings" = some (.obj props2))
    (h1 : props.get "useRegex" = props2.get "useRegex")
    (h2 : props.get "useWordBoundaryEN" = props2.get "useWordBoundaryEN")
    (h3 : props.get "showBadge" = props2.get "showBadge") :
    importedSettings d = importedSettings d2 := by
  unfold importedSettings
  rw [hd, hd2]
  simp only [h1, h2, h3]

theorem importJson_saved {Text : Type} (codec : JsonCodec Text) (fileText : Text)
    (importedData : Json) (hparse : codec.parse fileText = some importedData)
    (hnull : importedData ≠ .null) :
    importJson codec fileText true =
      .saved { ngWords := importedNgWords importedData
               settings := importedSettings importedData
               tempBypassUntil := none, blockedCount := none } := by
  unfold importJson
  rw [hparse]
  cases importedData with
  | null => exact absurd rfl hnull
  | bool b => rfl
  | num t => rfl
  | str t => rfl
  | arr items => rfl
  | obj props => rfl

theorem importedNgWords_ne_none_iff (d : Json) :
    importedNgWords d ≠ none ↔ ∃ items, d.prop "ngWords" = some (.arr items) := by
  unfold importedNgWords
  constructor
  · intro h
    split at h
    · rename_i items heq
      exact ⟨items, heq⟩
    · exact absurd rfl h
  · rintro ⟨items, h⟩
    rw [h]
    simp

theorem importedSettings_ne_none_iff (d : Json) :
    importedSettings d ≠ none ↔
      (∃ props, d.prop "settings" = some (.obj props)) ∨
      (∃ items, d.prop "settings" = some (.arr items)) := by
  unfold importedSettings
  constructor
  · intro h
    split at h
    · rename_i props heq
      exact Or.inl ⟨props, heq⟩
    · rename_i items heq
      exact Or.inr ⟨items, heq⟩
    · exact absurd rfl h
  · rintro (⟨props, h⟩ | ⟨items, h⟩) <;> rw [h] <;> simp

/-- C11 as stated fails for an import whose `settings` is an array: the file
`{"settings":[1]}` is saved with a `settings` key although its `settings` is
not an object, and saving it over a storage whose `useRegex` is `true` turns
the flag off. -/
theorem importJson_array_settings_counterexample :
    ¬ (∀ newState : PartialState,
        importJson valueCodec arraySettingsImport true = .saved newState →
        newState.settings ≠ none →
        ∃ props, arraySettingsImport.prop "settings" = some (.obj props)) ∧
    importJson valueCodec arraySettingsImport true =
      .saved { ngWords := none
               settings := some { useRegex := some false, useWordBoundaryEN := some false,
                                  showBadge := some true }
               tempBypassUntil := none, blockedCount := none } ∧
    (getState partialStorage).settings.useRegex = true ∧
    (setState partialStorage
      { ngWords := none
        settings := some { useRegex := some false, useWordBoundaryEN := some false,
                           showBadge := some true }
        tempBypassUntil := none, blockedCount := none }).2.settings.useRegex = false := by
  refine ⟨?_, by decide, by decide, by decide⟩
  intro h
  obtain ⟨props, hp⟩ := h _ rfl (by decide)
  have hs : arraySettingsImport.prop "settings" =
      some (.arr (.cons (.num "1".toList) .nil)) := rfl
  rw [hs] at hp
  cases hp

/-- C11, amended: import validation is field-level.  For every parsed import
value other than `null`, with the dialog confirmed, a partial state is
written: it has an `ngWords` key exactly when the imported `ngWords` is an
array, and a `settings` key exactly when the imported `settings` is an object
or an array (the non-null values whose `typeof` is `object`).  The settings
written hold the three known keys and nothing else: for an object, each
boolean as imported, `useRegex` and `useWordBoundaryEN` being `false` and
`showBadge` being `true` when missing, whatever other keys the imported object
has; for an array, `false`, `false` and `true`.  No other key is written, and
a key that is not written keeps its stored value. -/
theorem importJson_field_level_validation {Text : Type} (codec : JsonCodec Text)
    (fileText : Text) (importedData : Json)
    (hparse : codec.parse fileText = some importedData) (hnull : importedData ≠ .null) :
    ∃ newState : PartialState, importJson codec fileText true = .saved newState ∧
      newState.tempBypassUntil = none ∧ newState.blockedCount = none ∧
      (newState.ngWords ≠ none ↔ ∃ items, importedData.prop "ngWords" = some (.arr items)) ∧
      (newState.settings ≠ none ↔
        (∃ props, importedData.prop "settings" = some (.obj props)) ∨
        (∃ items, importedData.prop "settings" = some (.arr items))) ∧
      (∀ p, newState.settings = some p →
        p.useRegex ≠ none ∧ p.useWordBoundaryEN ≠ none ∧ p.showBadge ≠ none) ∧
      (∀ items, importedData.prop "settings" = some (.arr items) →
        newState.settings
          = some { useRegex := some false, useWordBoundaryEN := some false,
                   showBadge := some true }) ∧
      (∀ props p, importedData.prop "settings" = some (.obj props) →
        newState.settings = some p →
        (props.get "useRegex" = none → p.useRegex = some false) ∧
        (∀ b, props.get "useRegex" = some (.bool b) → p.useRegex = some b) ∧
        (props.get "useWordBoundaryEN" = none → p.useWordBoundaryEN = some false) ∧
        (∀ b, props.get "useWordBoundaryEN" = some (.bool b) →
          p.useWordBoundaryEN = some b) ∧
        (props.get "showBadge" = none → p.showBadge = some true) ∧
        (∀ b, props.get "showBadge" = some (.bool b) → p.showBadge = some b) ∧
        (∀ (d2 : Json) (props2 : JsonProps), d2.prop "settings" = some (.obj props2) →
          props.get "useRegex" = props2.get "useRegex" →
          props.get "useWordBoundaryEN" = props2.get "useWordBoundaryEN" →
          props.get "showBadge" = props2.get "showBadge" →
          importedSettings d2 = some p)) ∧
      (∀ storage : Storage,
        (newState.ngWords = none →
          (setState storage newState).2.ngWords = (getState storage).ngWords) ∧
        (newState.settings = none →
          (setState storage newState).2.settings = (getState storage).settings) ∧
        (setState storage newState).2.tempBypassUntil = (getState storage).tempBypassUntil ∧
        (setState storage newState).2.blockedCount = (getState storage).blockedCount) := by
  refine ⟨_, importJson_saved codec fileText importedData hparse hnull, rfl, rfl,
    importedNgWords_ne_none_iff _, importedSettings_ne_none_iff _, ?_, ?_, ?_, ?_⟩
  · intro p hp
    have hp2 : importedSettings importedData = some p := hp
    unfold importedSettings at hp2
    split at hp2
    · simp only [Option.some.injEq] at hp2
      subst hp2; simp
    · simp only [Option.some.injEq] at hp2
      subst hp2; simp
    · exact absurd hp2 (by simp)
  · intro items h
    show importedSettings importedData = _
    simp only [importedSettings, h]
  · intro props p h hp
    have hp2 : importedSettings importedData = some p := hp
    simp only [importedSettings, h, Option.some.injEq] at hp
    subst hp
    refine ⟨?_, ?_, ?_, ?_, ?_, ?_, ?_⟩
    · intro hk; simp [hk, toBoolean]
    · intro b hk; simp [hk, toBoolean]
    · intro hk; simp [hk, toBoolean]
    · intro b hk; simp [hk, toBoolean]
    · intro hk; simp [hk, notStrictlyFalse]
    · intro b hk; cases b <;> simp [hk, notStrictlyFalse]
    · intro d2 props2 hd2 h1 h2 h3
      rw [← hp2]
      exact (importedSettings_congr importedData d2 props props2 h hd2 h1 h2 h3).symm
  · intro storage
    refine ⟨?_, ?_, rfl, rfl⟩
    · intro h
      have h2 : importedNgWords importedData = none := h
      simp only [setState, h2, Option.getD_none]
    · intro h
      have h2 : importedSettings importedData = none := h
      simp only [setState, h2]

/-- The amended C11 for an import file whose `ngWords` is a string and whose
`settings` hold `useRegex: true` and an unknown key: the word list is not
written, the settings written are `useRegex: true`,
`useWordBoundaryEN: false`, `showBadge: true`. -/
theorem importJson_field_level_validation_witness :
    importJson valueCodec exampleImport true =
      .saved { ngWords := none
               settings := some { useRegex := some true, useWordBoundaryEN := some false,
                                  showBadge := some true }
               tempBypassUntil := none, blockedCount := none } ∧
    ∃ newState : PartialState, importJson valueCodec exampleImport true = .saved newState ∧
      (newState.ngWords ≠ none ↔ ∃ items, exampleImport.prop "ngWords" = some (.arr items)) :=
  ⟨by decide,
    (importJson_field_level_validation valueCodec exampleImport exampleImport rfl
      (by simp [exampleImport])).imp (fun _ h => ⟨h.1, h.2.2.2.1⟩)⟩

/-! ### UTF-8 -/

theorem char_toNat_valid (c : Char) :
    c.toNat < 0xD800 ∨ (0xDFFF < c.toNat ∧ c.toNat < 0x110000) := c.valid

theorem utf8Bytes_lt (c : Char) : ∀ b ∈ utf8Bytes c, b < 256 := by
  have hv := char_toNat_valid c
  intro b hb
  unfold utf8Bytes at hb
  simp only at hb
  split at hb
  · simp only [List.mem_singleton] at hb; omega
  · split at hb
    · simp only [List.mem_cons, List.mem_singleton, List.not_mem_nil, or_false] at hb
      omega
    · split at hb
      · simp only [List.mem_cons, List.mem_singleton, List.not_mem_nil, or_false] at hb
        omega
      · simp only [List.mem_cons, List.mem_singleton, List.not_mem_nil, or_false] at hb
        omega

theorem utf8Bytes_length_pos (c : Char) : 0 < (utf8Bytes c).length := by
  unfold utf8Bytes
  simp only
  split
  · simp
  · split
    · simp
    · split <;> simp

/-- The decoder reads back the code point at the head of its UTF-8 bytes. -/
theorem utf8Head_utf8Bytes (c : Char) (rest : List Nat) :
    utf8Head (utf8Bytes c ++ rest) = some (c, (utf8Bytes c).length) := by
  have hv := char_toNat_valid c
  have hc : Char.ofNat c.toNat = c := Char.ofNat_toNat c
  unfold utf8Bytes
  simp only
  by_cases h1 : c.toNat < 0x80
  · simp only [h1, if_true, List.singleton_append, utf8Head, List.length_singleton, hc]
  · by_cases h2 : c.toNat < 0x800
    · simp only [h1, h2, if_true, if_false, List.cons_append, List.nil_append, utf8Head,
        isContinuation, List.length_cons, List.length_nil]
      have e1 : ¬ (0xC0 + c.toNat / 64 < 0x80) := by omega
      have e2 : ¬ (0xC0 + c.toNat / 64 < 0xC2) := by omega
      have e3 : 0xC0 + c.toNat / 64 < 0xE0 := by omega
      have e4 : (decide (0x80 ≤ 0x80 + c.toNat % 64) && decide (0x80 + c.toNat % 64 < 0xC0))
          = true := by
        simp only [Bool.and_eq_true, decide_eq_true_eq]; omega
      have e5 : (0xC0 + c.toNat / 64 - 0xC0) * 64 + (0x80 + c.toNat % 64 - 0x80) = c.toNat := by
        omega
      simp only [e1, e2, e3, e4, e5, if_true, if_false, hc]
    · by_cases h3 : c.toNat < 0x10000
      · simp only [h1, h2, h3, if_true, if_false, List.cons_append, List.nil_append, utf8Head,
          isContinuation, List.length_cons, List.length_nil]
        have e1 : ¬ (0xE0 + c.toNat / 4096 < 0x80) := by omega
        have e2 : ¬ (0xE0 + c.toNat / 4096 < 0xC2) := by omega
        have e3 : ¬ (0xE0 + c.toNat / 4096 < 0xE0) := by omega
        have e4 : 0xE0 + c.toNat / 4096 < 0xF0 := by omega
        have e5 : (0xE0 + c.toNat / 4096 - 0xE0) * 4096 + (0x80 + c.toNat / 64 % 64 - 0x80) * 64
            + (0x80 + c.toNat % 64 - 0x80) = c.toNat := by omega
        have e6 : (decide (0x80 ≤ 0x80 + c.toNat / 64 % 64) &&
            decide (0x80 + c.toNat / 64 % 64 < 0xC0)) = true := by
          simp only [Bool.and_eq_true, decide_eq_true_eq]; omega
        have e7 : (decide (0x80 ≤ 0x80 + c.toNat % 64) && decide (0x80 + c.toNat % 64 < 0xC0))
            = true := by
          simp only [Bool.and_eq_true, decide_eq_true_eq]; omega
        have e8 : decide (0x800 ≤ c.toNat) = true := by simp only [decide_eq_true_eq]; omega
        have e9 : (decide (0xD800 ≤ c.toNat) && decide (c.toNat < 0xE000)) = false := by
          simp only [Bool.and_eq_false_imp, decide_eq_true_eq, decide_eq_false_iff_not]; omega
        simp only [e1, e2, e3, e4, e5, e6, e7, e8, e9, if_true, if_false, hc, Bool.and_self,
          Bool.not_false]
      · simp only [h1, h2, h3, if_false, List.cons_append, List.nil_append, utf8Head,
          isContinuation, List.length_cons, List.length_nil]
        have e1 : ¬ (0xF0 + c.toNat / 262144 < 0x80) := by omega
        have e2 : ¬ (0xF0 + c.toNat / 262144 < 0xC2) := by omega
        have e3 : ¬ (0xF0 + c.toNat / 262144 < 0xE0) := by omega
        have e4 : ¬ (0xF0 + c.toNat / 262144 < 0xF0) := by omega
        have e4b : 0xF0 + c.toNat / 262144 < 0xF5 := by omega
        have e5 : (0xF0 + c.toNat / 262144 - 0xF0) * 262144
            + (0x80 + c.toNat / 4096 % 64 - 0x80) * 4096
            + (0x80 + c.toNat / 64 % 64 - 0x80) * 64 + (0x80 + c.toNat % 64 - 0x80)
            = c.toNat := by omega
        have e6 : (decide (0x80 ≤ 0x80 + c.toNat / 4096 % 64) &&
            decide (0x80 + c.toNat / 4096 % 64 < 0xC0)) = true := by
          simp only [Bool.and_eq_true, decide_eq_true_eq]; omega
        have e7 : (decide (0x80 ≤ 0x80 + c.toNat / 64 % 64) &&
            decide (0x80 + c.toNat / 64 % 64 < 0xC0)) = true := by
          simp only [Bool.and_eq_true, decide_eq_true_eq]; omega
        have e8 : (decide (0x80 ≤ 0x80 + c.toNat % 64) && decide (0x80 + c.toNat % 64 < 0xC0))
            = true := by
          simp only [Bool.and_eq_true, decide_eq_true_eq]; omega
        have e9 : decide (0x10000 ≤ c.toNat) = true := by simp only [decide_eq_true_eq]; omega
        have e10 : decide (c.toNat < 0x110000) = true := by
          simp only [decide_eq_true_eq]; omega
        simp only [e1, e2, e3, e4, e4b, e5, e6, e7, e8, e9, e10, if_true, if_false, hc,
          Bool.and_self]

theorem utf8DecodeAux_skip (replacement : Option Char) (rest : List Nat) :
    ∀ (consumed : List Nat),
      utf8DecodeAux replacement consumed.length (consumed ++ rest)
        = utf8DecodeAux replacement 0 rest
  | [] => rfl
  | b :: consumed => by
    show utf8DecodeAux replacement consumed.length (consumed ++ rest) = _
    exact utf8DecodeAux_skip replacement rest consumed

theorem utf8DecodeAux_zero_cons (replacement : Option Char) (b0 : Nat) (rest : List Nat) :
    utf8DecodeAux replacement 0 (b0 :: rest) =
      match utf8Head (b0 :: rest) with
      | some (c, size) =>
        (utf8DecodeAux replacement (size - 1) rest).map (fun s => c :: s)
      | none =>
        match replacement with
        | some r => (utf8DecodeAux replacement 0 rest).map (fun s => r :: s)
        | none => none := rfl

theorem utf8DecodeAux_utf8Bytes (replacement : Option Char) (c : Char) (rest : List Nat) :
    utf8DecodeAux replacement 0 (utf8Bytes c ++ rest)
      = (utf8DecodeAux replacement 0 rest).map (fun s => c :: s) := by
  have hhead := utf8Head_utf8Bytes c rest
  cases hb : utf8Bytes c with
  | nil => exact absurd (hb ▸ utf8Bytes_length_pos c) (by simp)
  | cons b0 tail =>
    rw [hb] at hhead
    rw [List.cons_append] at hhead ⊢
    rw [utf8DecodeAux_zero_cons, hhead]
    simp only [List.length_cons, Nat.add_sub_cancel]
    rw [utf8DecodeAux_skip]

/-- Decoding the UTF-8 bytes of a string gives the string back, strictly or
with a replacement character. -/
theorem utf8Decode_utf8Bytes (replacement : Option Char) :
    ∀ s : Str, utf8Decode replacement (s.flatMap utf8Bytes) = some s
  | [] => rfl
  | c :: s => by
    have ih := utf8Decode_utf8Bytes replacement s
    unfold utf8Decode at ih ⊢
    rw [List.flatMap_cons, utf8DecodeAux_utf8Bytes, ih]
    rfl

/-! ### Percent escapes -/

theorem hexValue_hexDigit : ∀ d, d < 16 → hexValue (hexDigit d) = some d := by
  decide

theorem hexPair_hexDigits (b : Nat) (hb : b < 256) (rest : Str) :
    hexPair (hexDigit (b / 16) :: hexDigit (b % 16) :: rest) = some b := by
  simp only [hexPair, hexValue_hexDigit (b / 16) (by omega),
    hexValue_hexDigit (b % 16) (by omega), Option.some.injEq]
  omega

theorem percentDecodeAux_percentEncodeByte (lenient : Bool) (b : Nat) (hb : b < 256)
    (rest : Str) :
    percentDecodeAux lenient 0 (percentEncodeByte b ++ rest)
      = (percentDecodeAux lenient 0 rest).map (fun bs => b :: bs) := by
  unfold percentEncodeByte
  simp only [List.cons_append, List.nil_append]
  rw [percentDecodeAux]
  simp only [if_true, hexPair_hexDigits b hb]
  rw [percentDecodeAux, percentDecodeAux]

theorem percentDecodeAux_escapes (lenient : Bool) (rest : Str) :
    ∀ bytes : List Nat, (∀ b ∈ bytes, b < 256) →
      percentDecodeAux lenient 0 (bytes.flatMap percentEncodeByte ++ rest)
        = (percentDecodeAux lenient 0 rest).map (fun bs => bytes ++ bs)
  | [], _ => by simp
  | b :: bytes, h => by
    rw [List.flatMap_cons, List.append_assoc,
      percentDecodeAux_percentEncodeByte lenient b (h b (List.mem_cons_self _ _)),
      percentDecodeAux_escapes lenient rest bytes (fun x hx => h x (List.mem_cons_of_mem _ hx))]
    cases percentDecodeAux lenient 0 rest <;> rfl

theorem percentDecodeAux_literal (lenient : Bool) (c : Char) (hc : c ≠ '%') (rest : Str) :
    percentDecodeAux lenient 0 (c :: rest)
      = (percentDecodeAux lenient 0 rest).map (fun bs => utf8Bytes c ++ bs) := by
  rw [percentDecodeAux]
  simp only [hc, if_false]

theorem isUriUnescaped_ne_percent (c : Char) (h : isUriUnescaped c = true) : c ≠ '%' := by
  rintro rfl
  exact absurd h (by decide)

theorem percentDecode_encodeURIComponent :
    ∀ s : Str, percentDecode false (encodeURIComponent s) = some (s.flatMap utf8Bytes)
  | [] => rfl
  | c :: s => by
    have ih := percentDecode_encodeURIComponent s
    unfold percentDecode encodeURIComponent at ih ⊢
    rw [List.flatMap_cons, List.flatMap_cons]
    by_cases hu : isUriUnescaped c = true
    · simp only [hu, if_true, List.singleton_append]
      rw [percentDecodeAux_literal false c (isUriUnescaped_ne_percent c hu), ih]
      rfl
    · have hu2 : isUriUnescaped c = false := by simpa using hu
      simp only [hu2, Bool.false_eq_true, if_false]
      rw [percentDecodeAux_escapes false _ _ (utf8Bytes_lt c), ih]
      rfl

/-- The function `decodeURIComponent` undoes `encodeURIComponent`. -/
theorem decodeURIComponent_encodeURIComponent (s : Str) :
    decodeURIComponent (encodeURIComponent s) = some s := by
  unfold decodeURIComponent
  rw [percentDecode_encodeURIComponent]
  exact utf8Decode_utf8Bytes none s

/-! ### The form-urlencoded serialiser and parser -/

theorem isFormSafe_lt (b : Nat) (h : isFormSafe b = true) : b < 128 := by
  unfold isFormSafe at h
  simp only [Bool.or_eq_true, Bool.and_eq_true, beq_iff_eq, decide_eq_true_eq] at h
  omega

/-- What holds of the code point of a safe byte: it is no `%`, `+`, `&`, `=`,
`#` or `?`, and it is its own UTF-8 form. -/
theorem formSafe_char : ∀ b, b < 128 → isFormSafe b = true →
    Char.ofNat b ≠ '%' ∧ Char.ofNat b ≠ '+' ∧ Char.ofNat b ≠ '&' ∧ Char.ofNat b ≠ '=' ∧
      Char.ofNat b ≠ '#' ∧ Char.ofNat b ≠ '?' ∧ utf8Bytes (Char.ofNat b) = [b] := by
  decide

/-- A hexadecimal digit is no `+`, `&`, `=`, `#` or `?`. -/
theorem hexDigit_char : ∀ d, d < 16 →
    hexDigit d ≠ '+' ∧ hexDigit d ≠ '&' ∧ hexDigit d ≠ '=' ∧ hexDigit d ≠ '#' ∧
      hexDigit d ≠ '?' := by
  decide

/-- The code points that the serialiser writes are no `&`, `=`, `#` or `?`. -/
theorem mem_formEncodeByte (b : Nat) (hb : b < 256) (c : Char) (hc : c ∈ formEncodeByte b) :
    c ≠ '&' ∧ c ≠ '=' ∧ c ≠ '#' ∧ c ≠ '?' := by
  unfold formEncodeByte at hc
  split at hc
  · simp only [List.mem_singleton] at hc
    subst hc; decide
  · split at hc
    · rename_i hs
      simp only [List.mem_singleton] at hc
      subst hc
      have := formSafe_char b (isFormSafe_lt b hs) hs
      exact ⟨this.2.2.1, this.2.2.2.1, this.2.2.2.2.1, this.2.2.2.2.2.1⟩
    · unfold percentEncodeByte at hc
      simp only [List.mem_cons, List.mem_singleton, List.not_mem_nil, or_false] at hc
      rcases hc with rfl | rfl | rfl
      · decide
      · have := hexDigit_char (b / 16) (by omega)
        exact ⟨this.2.1, this.2.2.1, this.2.2.2.1, this.2.2.2.2⟩
      · have := hexDigit_char (b % 16) (by omega)
        exact ⟨this.2.1, this.2.2.1, this.2.2.2.1, this.2.2.2.2⟩

theorem mem_formEncode (s : Str) (c : Char) (hc : c ∈ formEncode s) :
    c ≠ '&' ∧ c ≠ '=' ∧ c ≠ '#' ∧ c ≠ '?' := by
  unfold formEncode at hc
  obtain ⟨b, hb, hcb⟩ := List.mem_flatMap.mp hc
  obtain ⟨d, _, hbd⟩ := List.mem_flatMap.mp hb
  exact mem_formEncodeByte b (utf8Bytes_lt d b hbd) c hcb

/-- The parser's replacement of `+` by a space, on the output of the
serialiser for one byte. -/
theorem map_plus_formEncodeByte (b : Nat) (hb : b < 256) :
    (formEncodeByte b).map (fun c => if c = '+' then ' ' else c)
      = if b = 0x20 then [' '] else formEncodeByte b := by
  unfold formEncodeByte
  by_cases h1 : b = 0x20
  · simp [h1]
  · simp only [h1, if_false]
    by_cases hs : isFormSafe b = true
    · have := (formSafe_char b (isFormSafe_lt b hs) hs).2.1
      simp only [hs, if_true, List.map_cons, List.map_nil, this, if_false]
    · have hs2 : isFormSafe b = false := by simpa using hs
      have h16 := (hexDigit_char (b / 16) (by omega)).1
      have h1b := (hexDigit_char (b % 16) (by omega)).1
      have hp : ('%' = '+') = False := by decide
      simp only [hs2, Bool.false_eq_true, if_false, percentEncodeByte, List.map_cons,
        List.map_nil, h16, h1b, hp]

/-- Percent-decoding reads back a byte from what the serialiser wrote for it,
once `+` is replaced. -/
theorem percentDecodeAux_formEncodeByte (b : Nat) (hb : b < 256) (rest : Str) :
    percentDecodeAux true 0 ((if b = 0x20 then [' '] else formEncodeByte b) ++ rest)
      = (percentDecodeAux true 0 rest).map (fun bs => b :: bs) := by
  by_cases h1 : b = 0x20
  · subst h1
    simp only [if_true, List.singleton_append]
    rw [percentDecodeAux_literal true ' ' (by decide)]
    rfl
  · simp only [h1, if_false]
    unfold formEncodeByte
    simp only [h1, if_false]
    by_cases hs : isFormSafe b = true
    · have hf := formSafe_char b (isFormSafe_lt b hs) hs
      simp only [hs, if_true, List.singleton_append]
      rw [percentDecodeAux_literal true _ hf.1, hf.2.2.2.2.2.2]
      rfl
    · have hs2 : isFormSafe b = false := by simpa using hs
      simp only [hs2, Bool.false_eq_true, if_false]
      exact percentDecodeAux_percentEncodeByte true b hb rest

theorem percentDecodeAux_formEncode (rest : Str) :
    ∀ bytes : List Nat, (∀ b ∈ bytes, b < 256) →
      percentDecodeAux true 0
          ((bytes.flatMap formEncodeByte).map (fun c => if c = '+' then ' ' else c) ++ rest)
        = (percentDecodeAux true 0 rest).map (fun bs => bytes ++ bs)
  | [], _ => by simp
  | b :: bytes, h => by
    have hb := h b (List.mem_cons_self _ _)
    rw [List.flatMap_cons, List.map_append, map_plus_formEncodeByte b hb, List.append_assoc,
      percentDecodeAux_formEncodeByte b hb,
      percentDecodeAux_formEncode rest bytes (fun x hx => h x (List.mem_cons_of_mem _ hx))]
    cases percentDecodeAux true 0 rest <;> rfl

/-- The parser reads back a name or a value from what the serialiser wrote. -/
theorem formDecode_formEncode (s : Str) : formDecode (formEncode s) = s := by
  have hbytes : ∀ b ∈ s.flatMap utf8Bytes, b < 256 := by
    intro b hb
    obtain ⟨c, _, hbc⟩ := List.mem_flatMap.mp hb
    exact utf8Bytes_lt c b hbc
  have h := percentDecodeAux_formEncode [] (s.flatMap utf8Bytes) hbytes
  simp only [List.append_nil] at h
  unfold formDecode percentDecode formEncode
  rw [h]
  simp only [percentDecodeAux, Option.map_some', List.append_nil]
  rw [utf8Decode_utf8Bytes]
  rfl

theorem splitOn_of_not_mem (sep : Char) :
    ∀ a : Str, sep ∉ a → splitOn sep a = [a]
  | [], _ => rfl
  | c :: a, h => by
    have hc : c ≠ sep := fun hc => h (hc ▸ List.mem_cons_self _ _)
    have ih := splitOn_of_not_mem sep a (fun hm => h (List.mem_cons_of_mem _ hm))
    simp only [splitOn, hc, if_false, ih]

theorem splitOn_append_sep (sep : Char) (b : Str) :
    ∀ a : Str, sep ∉ a → splitOn sep (a ++ sep :: b) = a :: splitOn sep b
  | [], _ => by simp [splitOn]
  | c :: a, h => by
    have hc : c ≠ sep := fun hc => h (hc ▸ List.mem_cons_self _ _)
    have ih := splitOn_append_sep sep b a (fun hm => h (List.mem_cons_of_mem _ hm))
    have ih2 : splitOn sep (a.append (sep :: b)) = a :: splitOn sep b := ih
    simp only [List.cons_append, splitOn, hc, if_false, ih2]

theorem intercalate_cons_cons (sep x y : Str) (l : List Str) :
    List.intercalate sep (x :: y :: l) = x ++ sep ++ List.intercalate sep (y :: l) := by
  simp [List.intercalate, List.intersperse]

/-- Cutting at a separator gives back the pieces that were joined with it. -/
theorem splitOn_intercalate (sep : Char) :
    ∀ pieces : List Str, pieces ≠ [] → (∀ piece ∈ pieces, sep ∉ piece) →
      splitOn sep (List.intercalate [sep] pieces) = pieces
  | [], h, _ => absurd rfl h
  | [x], _, h => by
    have : List.intercalate [sep] [x] = x := by simp [List.intercalate, List.intersperse]
    rw [this]
    exact splitOn_of_not_mem sep x (h x (List.mem_cons_self _ _))
  | x :: y :: l, _, h => by
    rw [intercalate_cons_cons, List.append_assoc, List.singleton_append,
      splitOn_append_sep sep _ x (h x (List.mem_cons_self _ _)),
      splitOn_intercalate sep (y :: l) (by simp)
        (fun p hp => h p (List.mem_cons_of_mem _ hp))]

theorem takeWhile_append_stop {p : Char → Bool} (x : Char) (hx : p x = false) (b : Str) :
    ∀ a : Str, (∀ c ∈ a, p c = true) → (a ++ x :: b).takeWhile p = a
  | [], _ => by simp [List.takeWhile, hx]
  | c :: a, h => by
    rw [List.cons_append, List.takeWhile_cons, h c (List.mem_cons_self _ _)]
    simp only [if_true, List.cons.injEq, true_and]
    exact takeWhile_append_stop x hx b a (fun d hd => h d (List.mem_cons_of_mem _ hd))

theorem dropWhile_append_stop {p : Char → Bool} (x : Char) (hx : p x = false) (b : Str) :
    ∀ a : Str, (∀ c ∈ a, p c = true) → (a ++ x :: b).dropWhile p = x :: b
  | [], _ => by simp [List.dropWhile, hx]
  | c :: a, h => by
    rw [List.cons_append, List.dropWhile_cons, h c (List.mem_cons_self _ _)]
    simp only [if_true]
    exact dropWhile_append_stop x hx b a (fun d hd => h d (List.mem_cons_of_mem _ hd))

/-- The text that the serialiser writes for one pair. -/
theorem parse_piece (p : Str × Str) :
    (formDecode ((formEncode p.1 ++ '=' :: formEncode p.2).takeWhile (fun c => c ≠ '=')),
      formDecode (((formEncode p.1 ++ '=' :: formEncode p.2).dropWhile
        (fun c => c ≠ '=')).drop 1)) = p := by
  have hname : ∀ c ∈ formEncode p.1, (fun c : Char => decide (c ≠ '=')) c = true :=
    fun c hc => by simpa using (mem_formEncode p.1 c hc).2.1
  have hstop : (fun c : Char => decide (c ≠ '=')) '=' = false := by decide
  rw [takeWhile_append_stop '=' hstop _ _ hname, dropWhile_append_stop '=' hstop _ _ hname]
  simp only [List.drop_succ_cons, List.drop_zero, formDecode_formEncode]

theorem not_mem_piece (p : Str × Str) : '&' ∉ formEncode p.1 ++ '=' :: formEncode p.2 := by
  intro h
  rcases List.mem_append.mp h with h | h
  · exact (mem_formEncode _ _ h).1 rfl
  · rcases List.mem_cons.mp h with h | h
    · exact absurd h (by decide)
    · exact (mem_formEncode _ _ h).1 rfl

/-- The constructor of `URLSearchParams` reads back the pairs from the text
that `toString` wrote, with or without a leading `?`. -/
theorem URLSearchParams.parse_toString (params : URLSearchParams) :
    URLSearchParams.parse ('?' :: URLSearchParams.toString params) = params := by
  unfold URLSearchParams.parse URLSearchParams.toString
  simp only
  cases params with
  | nil => rfl
  | cons p ps =>
    rw [splitOn_intercalate '&' _ (by simp)
      (by
        intro piece hpiece
        obtain ⟨q, _, rfl⟩ := List.mem_map.mp hpiece
        exact not_mem_piece q)]
    rw [List.filterMap_map]
    have hf : ∀ q : Str × Str,
        ((fun piece : Str =>
            if piece = [] then none
            else
              some (formDecode (piece.takeWhile (fun c => c ≠ '=')),
                    formDecode ((piece.dropWhile (fun c => c ≠ '=')).drop 1))) ∘
          (fun p : Str × Str => formEncode p.1 ++ '=' :: formEncode p.2)) q = some q := by
      intro q
      simp only [Function.comp]
      rw [if_neg (by simp), parse_piece]
    rw [List.filterMap_congr (fun q _ => hf q)]
    exact List.filterMap_some _


/-! ### The block view: from `blockAndRedirect` to the block page -/

theorem blockAndRedirect_params (e1 e2 e3 : Str) :
    URLSearchParams.set
        (URLSearchParams.set (URLSearchParams.set [] "query".toList e1) "ngword".toList e2)
        "engine".toList e3 =
      [("query".toList, e1), ("ngword".toList, e2), ("engine".toList, e3)] := by
  simp [URLSearchParams.set]

theorem orString_some_nil (s : Str) : orString (some s) [] = s := by
  show (if s = [] then [] else s) = s
  split_ifs with h
  · exact h.symm
  · rfl

theorem mem_toString (c : Char) :
    ∀ params : URLSearchParams, c ∈ URLSearchParams.toString params → c ≠ '#'
  | [], h => by simp [URLSearchParams.toString, List.intercalate, List.intersperse] at h
  | [p], h => by
    have hs : URLSearchParams.toString [p] = formEncode p.1 ++ '=' :: formEncode p.2 := by
      simp [URLSearchParams.toString, List.intercalate, List.intersperse]
    rw [hs] at h
    rcases List.mem_append.mp h with h | h
    · exact (mem_formEncode _ _ h).2.2.1
    · rcases List.mem_cons.mp h with h | h
      · rw [h]; decide
      · exact (mem_formEncode _ _ h).2.2.1
  | p :: q :: l, h => by
    have hs : URLSearchParams.toString (p :: q :: l) =
        (formEncode p.1 ++ '=' :: formEncode p.2) ++ ['&'] ++
          URLSearchParams.toString (q :: l) := by
      simp only [URLSearchParams.toString, List.map_cons, intercalate_cons_cons]
    rw [hs] at h
    rcases List.mem_append.mp h with h | h
    · rcases List.mem_append.mp h with h | h
      · rcases List.mem_append.mp h with h | h
        · exact (mem_formEncode _ _ h).2.2.1
        · rcases List.mem_cons.mp h with h | h
          · rw [h]; decide
          · exact (mem_formEncode _ _ h).2.2.1
      · rw [List.mem_singleton.mp h]; decide
    · exact mem_toString c (q :: l) h

/-- The search part of a URL made of a base without `?` and `#`, a `?`, and
a non-empty query without `#`, is the `?` and the query. -/
theorem locationSearch_append (base qs : Str) (hq : '?' ∉ base) (hf : '#' ∉ base)
    (hqs : '#' ∉ qs) (hne : qs ≠ []) :
    locationSearch (base ++ '?' :: qs) = '?' :: qs := by
  unfold locationSearch
  have hall : ∀ c ∈ base ++ '?' :: qs, (fun c : Char => decide (c ≠ '#')) c = true := by
    intro c hc
    have : c ≠ '#' := by
      rcases List.mem_append.mp hc with h | h
      · exact fun e => hf (e ▸ h)
      · rcases List.mem_cons.mp h with h | h
        · rw [h]; decide
        · exact fun e => hqs (e ▸ h)
    simpa using this
  have htake : (base ++ '?' :: qs).takeWhile (fun c => c ≠ '#') = base ++ '?' :: qs :=
    List.takeWhile_eq_self_iff.mpr hall
  have hbase : ∀ c ∈ base, (fun c : Char => decide (c ≠ '?')) c = true := by
    intro c hc
    have : c ≠ '?' := fun e => hq (e ▸ hc)
    simpa using this
  have hdrop : (base ++ '?' :: qs).dropWhile (fun c => c ≠ '?') = '?' :: qs :=
    dropWhile_append_stop '?' (by decide) qs base hbase
  simp only [htake, hdrop]
  cases qs with
  | nil => exact absurd rfl hne
  | cons c cs => simp

theorem blockAndRedirect_search (extensionBase : Str) (hq : '?' ∉ extensionBase)
    (hf : '#' ∉ extensionBase) (query matchedWord engine : Str) :
    locationSearch (Background.blockAndRedirect extensionBase query matchedWord engine) =
      '?' :: URLSearchParams.toString
        [("query".toList, encodeURIComponent query),
         ("ngword".toList, encodeURIComponent matchedWord),
         ("engine".toList, encodeURIComponent engine)] := by
  unfold Background.blockAndRedirect
  simp only [blockAndRedirect_params]
  have hsplit : extensionBase ++ "pages/block.html?".toList =
      (extensionBase ++ "pages/block.html".toList) ++ ['?'] := by
    rw [List.append_assoc]; rfl
  rw [hsplit, List.append_assoc, List.singleton_append]
  apply locationSearch_append
  · intro h
    rcases List.mem_append.mp h with h | h
    · exact hq h
    · revert h; decide
  · intro h
    rcases List.mem_append.mp h with h | h
    · exact hf h
    · revert h; decide
  · exact fun h => mem_toString '#' _ h rfl
  · simp [URLSearchParams.toString, List.intercalate, List.intersperse, formEncode]

/-- C14: for every query, matched word and engine host string, the block page
that is opened at the URL built by `blockAndRedirect` reads back, from the
`query`, `ngword` and `engine` parameters passed through `decodeURIComponent`,
exactly the three original strings. The extension base URL
(`chrome.runtime.getURL("")`) has no `?` and no `#`. -/
theorem block_view_parameters_round_trip (extensionBase : Str)
    (hq : '?' ∉ extensionBase) (hf : '#' ∉ extensionBase)
    (query matchedWord engine : Str) :
    BlockPage.readParams
        (locationSearch (Background.blockAndRedirect extensionBase query matchedWord engine)) =
      some (query, matchedWord, engine) := by
  rw [blockAndRedirect_search extensionBase hq hf]
  unfold BlockPage.readParams
  simp only [URLSearchParams.parse_toString]
  have h1 : URLSearchParams.get
      [("query".toList, encodeURIComponent query),
       ("ngword".toList, encodeURIComponent matchedWord),
       ("engine".toList, encodeURIComponent engine)] "query".toList =
        some (encodeURIComponent query) := by
    simp [URLSearchParams.get, List.find?]
  have h2 : URLSearchParams.get
      [("query".toList, encodeURIComponent query),
       ("ngword".toList, encodeURIComponent matchedWord),
       ("engine".toList, encodeURIComponent engine)] "ngword".toList =
        some (encodeURIComponent matchedWord) := by
    simp [URLSearchParams.get, List.find?]
  have h3 : URLSearchParams.get
      [("query".toList, encodeURIComponent query),
       ("ngword".toList, encodeURIComponent matchedWord),
       ("engine".toList, encodeURIComponent engine)] "engine".toList =
        some (encodeURIComponent engine) := by
    simp [URLSearchParams.get, List.find?]
  simp only [h1, h2, h3, orString_some_nil, decodeURIComponent_encodeURIComponent]

theorem block_view_parameters_round_trip_witness :
    '?' ∉ exampleExtensionBase ∧ '#' ∉ exampleExtensionBase ∧
      BlockPage.readParams
          (locationSearch (Background.blockAndRedirect exampleExtensionBase
            "a b&c=d%e+f 猫".toList "猫".toList "www.google.com".toList)) =
        some ("a b&c=d%e+f 猫".toList, "猫".toList, "www.google.com".toList) :=
  ⟨by decide, by decide,
    block_view_parameters_round_trip exampleExtensionBase (by decide) (by decide) _ _ _⟩

end NgWordBlocker
